import Mathlib

/-
Verification of the MHR-to-BVH conversion core (ComfyUI-MotionCapture).

This file gives a shallow embedding of the numerical/geometric core of the
repository: the skeleton tables and utility functions of
`src/lib/mhr_skeleton.py` (joint names, parent indices, rest offsets, the
BVH depth-first joint order, `rotation_matrix_from_vectors`,
`extract_bvh_positions_from_mhr`) and the conversion node of
`src/nodes/mhr_to_bvh_node.py` (`convert_to_bvh`, `_compute_rotations`,
`_compute_root_rotation`, `_compute_rest_directions`, `_write_bvh`).

Floating-point numpy arithmetic of the source is embedded as exact real
arithmetic; 3-vectors and 3x3 matrices are explicit records of reals.
Numeric thresholds (1e-6, 1e-8) are kept verbatim.  Python dictionaries
with integer keys are embedded as lists/functions with the same `get`
defaults as the source.  The index-book-keeping parts (depth-first order,
hierarchy and motion-line layout) are computable definitions over `List`.
-/

noncomputable section

namespace MHRBVH

/-- Real 3-vector, the embedding of a numpy array of shape (3,). -/
structure Vec3 where
  x : ℝ
  y : ℝ
  z : ℝ

namespace Vec3

def zero : Vec3 := ⟨0, 0, 0⟩

def add (a b : Vec3) : Vec3 := ⟨a.x + b.x, a.y + b.y, a.z + b.z⟩

def sub (a b : Vec3) : Vec3 := ⟨a.x - b.x, a.y - b.y, a.z - b.z⟩

def neg (a : Vec3) : Vec3 := ⟨-a.x, -a.y, -a.z⟩

def smul (c : ℝ) (a : Vec3) : Vec3 := ⟨c * a.x, c * a.y, c * a.z⟩

def dot (a b : Vec3) : ℝ := a.x * b.x + a.y * b.y + a.z * b.z

/-- Embedding of `np.cross` for 3-vectors. -/
def cross (a b : Vec3) : Vec3 :=
  ⟨a.y * b.z - a.z * b.y, a.z * b.x - a.x * b.z, a.x * b.y - a.y * b.x⟩

def normSq (a : Vec3) : ℝ := a.x * a.x + a.y * a.y + a.z * a.z

/-- Embedding of `np.linalg.norm` for 3-vectors. -/
def norm (a : Vec3) : ℝ := Real.sqrt (normSq a)

/-- Division of a vector by its norm, `v / np.linalg.norm(v)`. -/
def normalize (a : Vec3) : Vec3 := smul (1 / norm a) a

def ex : Vec3 := ⟨1, 0, 0⟩

def ey : Vec3 := ⟨0, 1, 0⟩

def ez : Vec3 := ⟨0, 0, 1⟩

end Vec3

/-- Real 3x3 matrix, the embedding of a numpy array of shape (3,3);
`mij` is the entry in row `i`, column `j`. -/
structure Mat3 where
  m00 : ℝ
  m01 : ℝ
  m02 : ℝ
  m10 : ℝ
  m11 : ℝ
  m12 : ℝ
  m20 : ℝ
  m21 : ℝ
  m22 : ℝ

namespace Mat3

/-- Embedding of `np.eye(3)`. -/
def one : Mat3 := ⟨1, 0, 0, 0, 1, 0, 0, 0, 1⟩

def add (A B : Mat3) : Mat3 :=
  ⟨A.m00 + B.m00, A.m01 + B.m01, A.m02 + B.m02,
   A.m10 + B.m10, A.m11 + B.m11, A.m12 + B.m12,
   A.m20 + B.m20, A.m21 + B.m21, A.m22 + B.m22⟩

def smul (c : ℝ) (A : Mat3) : Mat3 :=
  ⟨c * A.m00, c * A.m01, c * A.m02,
   c * A.m10, c * A.m11, c * A.m12,
   c * A.m20, c * A.m21, c * A.m22⟩

/-- Matrix product, `A @ B`. -/
def mul (A B : Mat3) : Mat3 :=
  ⟨A.m00 * B.m00 + A.m01 * B.m10 + A.m02 * B.m20,
   A.m00 * B.m01 + A.m01 * B.m11 + A.m02 * B.m21,
   A.m00 * B.m02 + A.m01 * B.m12 + A.m02 * B.m22,
   A.m10 * B.m00 + A.m11 * B.m10 + A.m12 * B.m20,
   A.m10 * B.m01 + A.m11 * B.m11 + A.m12 * B.m21,
   A.m10 * B.m02 + A.m11 * B.m12 + A.m12 * B.m22,
   A.m20 * B.m00 + A.m21 * B.m10 + A.m22 * B.m20,
   A.m20 * B.m01 + A.m21 * B.m11 + A.m22 * B.m21,
   A.m20 * B.m02 + A.m21 * B.m12 + A.m22 * B.m22⟩

/-- Matrix-vector product, `A @ v`. -/
def mulVec (A : Mat3) (v : Vec3) : Vec3 :=
  ⟨A.m00 * v.x + A.m01 * v.y + A.m02 * v.z,
   A.m10 * v.x + A.m11 * v.y + A.m12 * v.z,
   A.m20 * v.x + A.m21 * v.y + A.m22 * v.z⟩

/-- Embedding of `.T` for 3x3 matrices. -/
def transpose (A : Mat3) : Mat3 :=
  ⟨A.m00, A.m10, A.m20, A.m01, A.m11, A.m21, A.m02, A.m12, A.m22⟩

def det (A : Mat3) : ℝ :=
  A.m00 * (A.m11 * A.m22 - A.m12 * A.m21)
  - A.m01 * (A.m10 * A.m22 - A.m12 * A.m20)
  + A.m02 * (A.m10 * A.m21 - A.m11 * A.m20)

/-- Embedding of `np.outer(a, b)` for 3-vectors. -/
def outer (a b : Vec3) : Mat3 :=
  ⟨a.x * b.x, a.x * b.y, a.x * b.z,
   a.y * b.x, a.y * b.y, a.y * b.z,
   a.z * b.x, a.z * b.y, a.z * b.z⟩

/-- Embedding of `np.column_stack([c0, c1, c2])`. -/
def ofCols (c0 c1 c2 : Vec3) : Mat3 :=
  ⟨c0.x, c1.x, c2.x, c0.y, c1.y, c2.y, c0.z, c1.z, c2.z⟩

/-- A matrix is orthonormal when its transpose is a left inverse, i.e. its
columns are pairwise orthogonal unit vectors. -/
def Orthonormal (A : Mat3) : Prop := mul (transpose A) A = one

end Mat3

end MHRBVH

namespace MHRBVH

/-! ## Skeleton tables (`src/lib/mhr_skeleton.py`) -/

/-- `MHR_BVH_PARENTS`: parent indices of the 52-joint body+hands BVH
skeleton (−1 marks the root). -/
def MHR_BVH_PARENTS : List Int :=
  [-1, 0, 1, 2, 3, 4, 0, 0, 6, 7, 8, 9, 10, 11, 3, 3, 14, 15, 16, 17, 18, 19,
   20, 22, 23, 20, 25, 26, 20, 28, 29, 20, 31, 32, 20, 34, 35,
   21, 37, 38, 21, 40, 41, 21, 43, 44, 21, 46, 47, 21, 49, 50]

/-- `MHR_BVH_BODY_PARENTS = MHR_BVH_PARENTS[:22]`: body-only variant. -/
def MHR_BVH_BODY_PARENTS : List Int := MHR_BVH_PARENTS.take 22

/-- `MHR_BVH_OFFSETS`: T-pose offset dictionary, embedded as a partial map
so that the two different `.get` defaults of the source can be kept. -/
def MHR_BVH_OFFSETS (j : Nat) : Option Vec3 :=
  if j = 0 then some ⟨0, 0, 0⟩
  else if j = 1 then some ⟨0, 0.1, 0⟩
  else if j = 2 then some ⟨0, 0.15, 0⟩
  else if j = 3 then some ⟨0, 0.15, 0⟩
  else if j = 4 then some ⟨0, 0.1, 0⟩
  else if j = 5 then some ⟨0, 0.15, 0⟩
  else if j = 6 then some ⟨0.1, 0, 0⟩
  else if j = 7 then some ⟨-0.1, 0, 0⟩
  else if j = 8 then some ⟨0, -0.4, 0⟩
  else if j = 9 then some ⟨0, -0.4, 0⟩
  else if j = 10 then some ⟨0, -0.4, 0⟩
  else if j = 11 then some ⟨0, -0.4, 0⟩
  else if j = 12 then some ⟨0, -0.05, 0.1⟩
  else if j = 13 then some ⟨0, -0.05, 0.1⟩
  else if j = 14 then some ⟨0.1, 0, 0⟩
  else if j = 15 then some ⟨-0.1, 0, 0⟩
  else if j = 16 then some ⟨0.1, 0, 0⟩
  else if j = 17 then some ⟨-0.1, 0, 0⟩
  else if j = 18 then some ⟨0.25, 0, 0⟩
  else if j = 19 then some ⟨-0.25, 0, 0⟩
  else if j = 20 then some ⟨0.25, 0, 0⟩
  else if j = 21 then some ⟨-0.25, 0, 0⟩
  else if j = 22 then some ⟨0.04, 0, 0.02⟩
  else if j = 23 then some ⟨0.03, 0, 0⟩
  else if j = 24 then some ⟨0.025, 0, 0⟩
  else if j = 25 then some ⟨0.08, 0, 0.01⟩
  else if j = 26 then some ⟨0.035, 0, 0⟩
  else if j = 27 then some ⟨0.025, 0, 0⟩
  else if j = 28 then some ⟨0.08, 0, 0⟩
  else if j = 29 then some ⟨0.04, 0, 0⟩
  else if j = 30 then some ⟨0.03, 0, 0⟩
  else if j = 31 then some ⟨0.075, 0, -0.01⟩
  else if j = 32 then some ⟨0.035, 0, 0⟩
  else if j = 33 then some ⟨0.025, 0, 0⟩
  else if j = 34 then some ⟨0.065, 0, -0.02⟩
  else if j = 35 then some ⟨0.025, 0, 0⟩
  else if j = 36 then some ⟨0.02, 0, 0⟩
  else if j = 37 then some ⟨-0.04, 0, 0.02⟩
  else if j = 38 then some ⟨-0.03, 0, 0⟩
  else if j = 39 then some ⟨-0.025, 0, 0⟩
  else if j = 40 then some ⟨-0.08, 0, 0.01⟩
  else if j = 41 then some ⟨-0.035, 0, 0⟩
  else if j = 42 then some ⟨-0.025, 0, 0⟩
  else if j = 43 then some ⟨-0.08, 0, 0⟩
  else if j = 44 then some ⟨-0.04, 0, 0⟩
  else if j = 45 then some ⟨-0.03, 0, 0⟩
  else if j = 46 then some ⟨-0.075, 0, -0.01⟩
  else if j = 47 then some ⟨-0.035, 0, 0⟩
  else if j = 48 then some ⟨-0.025, 0, 0⟩
  else if j = 49 then some ⟨-0.065, 0, -0.02⟩
  else if j = 50 then some ⟨-0.025, 0, 0⟩
  else if j = 51 then some ⟨-0.02, 0, 0⟩
  else none

/-- `MHR_TO_BVH_KEYPOINT_MAP`: BVH joint index to MHR keypoint index;
`none` marks interpolated joints (pelvis and the spine chain). -/
def MHR_TO_BVH_KEYPOINT_MAP (j : Nat) : Option Nat :=
  if j = 0 then none
  else if j = 1 then none
  else if j = 2 then none
  else if j = 3 then none
  else if j = 4 then some 69
  else if j = 5 then some 0
  else if j = 6 then some 9
  else if j = 7 then some 10
  else if j = 8 then some 11
  else if j = 9 then some 12
  else if j = 10 then some 13
  else if j = 11 then some 14
  else if j = 12 then some 15
  else if j = 13 then some 18
  else if j = 14 then some 67
  else if j = 15 then some 68
  else if j = 16 then some 5
  else if j = 17 then some 6
  else if j = 18 then some 7
  else if j = 19 then some 8
  else if j = 20 then some 62
  else if j = 21 then some 41
  else if j = 22 then some 45
  else if j = 23 then some 44
  else if j = 24 then some 43
  else if j = 25 then some 49
  else if j = 26 then some 48
  else if j = 27 then some 47
  else if j = 28 then some 53
  else if j = 29 then some 52
  else if j = 30 then some 51
  else if j = 31 then some 57
  else if j = 32 then some 56
  else if j = 33 then some 55
  else if j = 34 then some 61
  else if j = 35 then some 60
  else if j = 36 then some 59
  else if j = 37 then some 24
  else if j = 38 then some 23
  else if j = 39 then some 22
  else if j = 40 then some 28
  else if j = 41 then some 27
  else if j = 42 then some 26
  else if j = 43 then some 32
  else if j = 44 then some 31
  else if j = 45 then some 30
  else if j = 46 then some 36
  else if j = 47 then some 35
  else if j = 48 then some 34
  else if j = 49 then some 40
  else if j = 50 then some 39
  else if j = 51 then some 38
  else none

/-- Number of BVH joints used, `len(MHR_BVH_JOINT_NAMES)` or the body-only
length, depending on `include_hands`. -/
def numJoints (include_hands : Bool) : Nat := if include_hands then 52 else 22

/-- Parent lookup `parent_indices[i]`; out-of-range reads default to the
root marker (never reached on the shipped tables). -/
def parAt (parents : List Int) (i : Nat) : Int := parents.getD i (-1)

/-! ## Depth-first order and BVH layout (`get_bvh_joint_order`,
`_write_bvh`, `_write_joint`) -/

/-- `[i for i, p in enumerate(parent_indices) if p == joint_idx]`:
the children of a joint, in index order. -/
def childrenOf (parents : List Int) (j : Nat) : List Nat :=
  (List.range parents.length).filter (fun i => parAt parents i == (j : Int))

/-- The recursive `traverse` closure of `get_bvh_joint_order`, made total
with a fuel argument; `parents.length` fuel always suffices on a valid
tree (ancestor chains never revisit a joint). -/
def dfs (parents : List Int) : Nat → Nat → List Nat
  | 0, _ => []
  | fuel + 1, j => j :: (childrenOf parents j).flatMap (dfs parents fuel)

/-- `get_bvh_joint_order(parent_indices)`: depth-first traversal from the
root, joint 0. -/
def get_bvh_joint_order (parents : List Int) : List Nat :=
  dfs parents parents.length 0

/-- Channels declared by `_write_joint` for one joint: 6 for the root
(`Xposition Yposition Zposition Zrotation Xrotation Yrotation`), 3 for
every other joint (`Zrotation Xrotation Yrotation`). -/
def channelCount (j : Nat) : Nat := if j = 0 then 6 else 3

/-- The sequence of `(joint, CHANNELS n)` declarations emitted by the
recursive `_write_joint`, in emission order (fuel-totalised like `dfs`). -/
def write_joint_channels (parents : List Int) : Nat → Nat → List (Nat × Nat)
  | 0, _ => []
  | fuel + 1, j =>
      (j, channelCount j) :: (childrenOf parents j).flatMap (write_joint_channels parents fuel)

/-- The numbers one joint contributes to a motion line in `_write_bvh`:
the root emits its scaled translation then its Euler triple
(`Zrotation`, `Xrotation`, `Yrotation` order); other joints emit only the
Euler triple. -/
def jointChunk (rot : Nat → ℝ × ℝ × ℝ) (trans : ℝ × ℝ × ℝ) (scale : ℝ)
    (j : Nat) : List ℝ :=
  if j = 0 then
    [trans.1 * scale, trans.2.1 * scale, trans.2.2 * scale,
     (rot j).1, (rot j).2.1, (rot j).2.2]
  else
    [(rot j).1, (rot j).2.1, (rot j).2.2]

/-- One frame line of the MOTION block of `_write_bvh`: the per-joint
chunks concatenated in `get_bvh_joint_order` order. -/
def frame_line (order : List Nat) (rot : Nat → ℝ × ℝ × ℝ) (trans : ℝ × ℝ × ℝ)
    (scale : ℝ) : List ℝ :=
  order.flatMap (jointChunk rot trans scale)

/-- A parent-index list describes a valid single-root tree: nonempty,
joint 0 is the unique root, every other parent index is a valid joint
index, and some rank function decreases from child to parent (this is
exactly acyclicity of the parent relation). -/
def ValidTree (parents : List Int) : Prop :=
  0 < parents.length ∧ parAt parents 0 = -1 ∧
  (∀ i, i < parents.length → 1 ≤ i →
    0 ≤ parAt parents i ∧ (parAt parents i).toNat < parents.length) ∧
  ∃ d : Nat → Nat, ∀ i, i < parents.length → 1 ≤ i →
    d ((parAt parents i).toNat) < d i

/-- `AncN parents k j i`: joint `j` is reached from joint `i` by walking
exactly `k` parent links, all through in-range joints. -/
inductive AncN (parents : List Int) : Nat → Nat → Nat → Prop
  | refl (j : Nat) : AncN parents 0 j j
  | step {k j p i : Nat} : AncN parents k j p → parAt parents i = (p : Int) →
      1 ≤ i → i < parents.length → AncN parents (k + 1) j i

end MHRBVH

namespace MHRBVH

/-! ## Geometry utilities (`rotation_matrix_from_vectors`,
`_compute_root_rotation`, Euler conversion) -/

/-- Embedding of `np.clip(v, lo, hi)`. -/
def clip (v lo hi : ℝ) : ℝ := min (max v lo) hi

/-- The skew (cross-product) matrix `K` built in
`rotation_matrix_from_vectors` from an axis vector. -/
def Kmat (a : Vec3) : Mat3 := ⟨0, -a.z, a.y, a.z, 0, -a.x, -a.y, a.x, 0⟩

/-- The Rodrigues formula line of `rotation_matrix_from_vectors`:
`np.eye(3) + sin(angle) * K + (1 - cos(angle)) * (K @ K)`. -/
def rodrigues (ax : Vec3) (ang : ℝ) : Mat3 :=
  Mat3.add (Mat3.add Mat3.one (Mat3.smul (Real.sin ang) (Kmat ax)))
    (Mat3.smul (1 - Real.cos ang) (Mat3.mul (Kmat ax) (Kmat ax)))

/-- The Rodrigues combination `I + s*K + t*K^2` with generic scalars, of
which `rodrigues ax ang` is the instance `s = sin ang`, `t = 1 - cos ang`;
stated generically so its algebraic properties can be shared with the
half-turn branch. -/
def rodM (ax : Vec3) (s t : ℝ) : Mat3 :=
  Mat3.add (Mat3.add Mat3.one (Mat3.smul s (Kmat ax)))
    (Mat3.smul t (Mat3.mul (Kmat ax) (Kmat ax)))

/-- The anti-parallel return value of `rotation_matrix_from_vectors`:
`-np.eye(3) + 2 * np.outer(axis, axis)`, a half-turn about `axis`. -/
def rot180 (ax : Vec3) : Mat3 :=
  Mat3.add (Mat3.smul (-1) Mat3.one) (Mat3.smul 2 (Mat3.outer ax ax))

/-- `rotation_matrix_from_vectors(vec_from, vec_to)` of
`src/lib/mhr_skeleton.py`, embedded line by line (note the `+ 1e-8`
regularisation of both input normalisations). -/
def rotation_matrix_from_vectors (vec_from vec_to : Vec3) : Mat3 :=
  let vf := Vec3.smul (1 / (Vec3.norm vec_from + 1e-8)) vec_from
  let vt := Vec3.smul (1 / (Vec3.norm vec_to + 1e-8)) vec_to
  let cr := Vec3.cross vf vt
  let d := Vec3.dot vf vt
  if Vec3.norm cr < 1e-8 then
    if 0 < d then Mat3.one
    else rot180 (Vec3.normalize (Vec3.cross vf (if |vf.x| < 0.9 then Vec3.ex else Vec3.ey)))
  else
    rodrigues (Vec3.smul (1 / Vec3.norm cr) cr) (Real.arccos (clip d (-1) 1))

/-- `keypoints[i]` on a landmark list (in-range on every 70-landmark
frame; `convert_to_bvh` surfaces shorter frames as an error). -/
def kpAt (kp : List Vec3) (i : Nat) : Vec3 := kp.getD i Vec3.zero

/-- `(left_hip + right_hip) / 2` of `_compute_root_rotation`
(MHR keypoints 9 and 10). -/
def hip_center (kp : List Vec3) : Vec3 :=
  Vec3.smul (1 / 2) (Vec3.add (kpAt kp 9) (kpAt kp 10))

/-- `(left_shoulder + right_shoulder) / 2` of `_compute_root_rotation`
(MHR keypoints 5 and 6). -/
def shoulder_center (kp : List Vec3) : Vec3 :=
  Vec3.smul (1 / 2) (Vec3.add (kpAt kp 5) (kpAt kp 6))

/-- The `up` vector of `_compute_root_rotation`: normalised
`shoulder_center - hip_center`, world Y on degeneracy. -/
def root_up (kp : List Vec3) : Vec3 :=
  let u := Vec3.sub (shoulder_center kp) (hip_center kp)
  if Vec3.norm u < 1e-6 then Vec3.ey else Vec3.smul (1 / Vec3.norm u) u

/-- The `right` vector of `_compute_root_rotation`: normalised
`right_hip - left_hip`, world X on degeneracy. -/
def root_right (kp : List Vec3) : Vec3 :=
  let r := Vec3.sub (kpAt kp 10) (kpAt kp 9)
  if Vec3.norm r < 1e-6 then Vec3.ex else Vec3.smul (1 / Vec3.norm r) r

/-- The `forward` vector of `_compute_root_rotation`:
normalised `cross(right, up)`, world Z on degeneracy. -/
def root_forward (kp : List Vec3) : Vec3 :=
  let f := Vec3.cross (root_right kp) (root_up kp)
  if Vec3.norm f < 1e-6 then Vec3.ez else Vec3.smul (1 / Vec3.norm f) f

/-- `_compute_root_rotation(keypoints)`: after the fallbacks, `right` is
recomputed as `cross(up, forward)` and the matrix has columns
`[right, up, forward]`. -/
def compute_root_rotation (kp : List Vec3) : Mat3 :=
  Mat3.ofCols (Vec3.cross (root_up kp) (root_forward kp)) (root_up kp) (root_forward kp)

/-- `atan2`, the two-argument arctangent used by the Euler decomposition
(standard convention, `atan2(0, x) = 0` for `x > 0`, `π` for `x < 0`). -/
def atan2 (y x : ℝ) : ℝ :=
  if 0 < x then Real.arctan (y / x)
  else if x < 0 then
    (if 0 ≤ y then Real.arctan (y / x) + Real.pi else Real.arctan (y / x) - Real.pi)
  else
    (if 0 < y then Real.pi / 2 else if y < 0 then -(Real.pi / 2) else 0)

/-- Radians to degrees, `np.degrees`. -/
def deg (r : ℝ) : ℝ := r * (180 / Real.pi)

/-- Intrinsic Z-X-Y Euler decomposition in degrees of a rotation matrix,
the embedding of `R.from_matrix(local_rot).as_euler('ZXY', degrees=True)`:
for `M = Rz(a) @ Rx(b) @ Ry(c)` one has `M[2][1] = sin b`,
`M[0][1] = -sin a cos b`, `M[1][1] = cos a cos b`, `M[2][0] = -cos b sin c`
and `M[2][2] = cos b cos c`; the result triple is `(a, b, c)` in degrees. -/
def eulerZXY (M : Mat3) : ℝ × ℝ × ℝ :=
  (deg (atan2 (-M.m01) M.m11),
   deg (Real.arcsin (clip M.m21 (-1) 1)),
   deg (atan2 (-M.m20) M.m22))

/-! ## Per-frame rotation solver (`_compute_rotations`,
`_compute_rest_directions`) -/

/-- `_compute_rest_directions`: the rest bone direction of each joint is
its first child's offset from `MHR_BVH_OFFSETS` (default `[0, 1, 0]`),
normalised when its norm exceeds 1e-6; leaves get world Y. -/
def compute_rest_directions (parents : List Int) (j : Nat) : Vec3 :=
  match (childrenOf parents j).head? with
  | some c =>
      let off := (MHR_BVH_OFFSETS c).getD ⟨0, 1, 0⟩
      if 1e-6 < Vec3.norm off then Vec3.smul (1 / Vec3.norm off) off else ⟨0, 1, 0⟩
  | none => ⟨0, 1, 0⟩

/-- `extract_bvh_positions_from_mhr(mhr_keypoints, include_hands)`:
pelvis is the hip midpoint, the spine chain interpolates from the pelvis
towards the neck landmark (keypoint 69) at 0.25/0.5/0.75, every other
in-range joint copies its mapped landmark, everything else stays zero. -/
def extract_bvh_positions_from_mhr (kp : List Vec3) (include_hands : Bool)
    (j : Nat) : Vec3 :=
  let pelvis := Vec3.smul (1 / 2) (Vec3.add (kpAt kp 9) (kpAt kp 10))
  let spine_dir := Vec3.sub (kpAt kp 69) pelvis
  if j = 0 then pelvis
  else if j = 1 then Vec3.add pelvis (Vec3.smul 0.25 spine_dir)
  else if j = 2 then Vec3.add pelvis (Vec3.smul 0.5 spine_dir)
  else if j = 3 then Vec3.add pelvis (Vec3.smul 0.75 spine_dir)
  else if j < numJoints include_hands then
    match MHR_TO_BVH_KEYPOINT_MAP j with
    | some idx => if idx < kp.length then kpAt kp idx else Vec3.zero
    | none => Vec3.zero
  else Vec3.zero

/-- The accumulated (global) rotation a joint holds in
`accumulated_rotations` at the end of the `_compute_rotations` joint loop
for one frame.  The root gets `_compute_root_rotation`; a joint with a
first child `c` at bone length above 1e-6 gets
`rotation_matrix_from_vectors(parent_rot @ rest_dir, current_dir) @
parent_rot`; degenerate bones and leaves copy the parent.  The
dictionary lookup `accumulated_rotations.get(parent_idx, np.eye(3))`
hits exactly when `0 ≤ parent_idx < joint_idx` (joints already
processed), else falls back to the identity. -/
def accRot (parents : List Int) (rest pos : Nat → Vec3) (rootR : Mat3)
    (j : Nat) : Mat3 :=
  if parAt parents j = -1 then rootR
  else
    let parentRot :=
      if h : 0 ≤ parAt parents j ∧ (parAt parents j).toNat < j then
        accRot parents rest pos rootR (parAt parents j).toNat
      else Mat3.one
    match (childrenOf parents j).head? with
    | none => parentRot
    | some c =>
        let dvec := Vec3.sub (pos c) (pos j)
        if 1e-6 < Vec3.norm dvec then
          Mat3.mul
            (rotation_matrix_from_vectors (Mat3.mulVec parentRot (rest j))
              (Vec3.smul (1 / Vec3.norm dvec) dvec))
            parentRot
        else parentRot
termination_by j
decreasing_by exact h.2

/-- The local rotation converted to Euler angles at the end of the joint
loop: the root reports its accumulated rotation, every other joint
reports `parent_rot.T @ global_rot` (at this point the dictionary holds
keys `0..joint_idx`, so the parent lookup hits when
`0 ≤ parent_idx ≤ joint_idx`). -/
def joint_local_rot (parents : List Int) (rest pos : Nat → Vec3)
    (rootR : Mat3) (j : Nat) : Mat3 :=
  if parAt parents j = -1 then accRot parents rest pos rootR j
  else
    let parentRot :=
      if 0 ≤ parAt parents j ∧ (parAt parents j).toNat ≤ j then
        accRot parents rest pos rootR (parAt parents j).toNat
      else Mat3.one
    Mat3.mul (Mat3.transpose parentRot) (accRot parents rest pos rootR j)

/-- One row of `euler_rotations`: the ZXY Euler triple (degrees) of the
joint's local rotation. -/
def joint_euler (parents : List Int) (rest pos : Nat → Vec3) (rootR : Mat3)
    (j : Nat) : ℝ × ℝ × ℝ :=
  eulerZXY (joint_local_rot parents rest pos rootR j)

/-- Everything `_compute_rotations` produces for a single frame from its
keypoints: the per-joint Euler rows and the root translation
`bvh_positions[0]`.  The topology tables, extracted positions, rest
directions and root rotation are tied together here exactly as in the
source. -/
def solve_frame (kp : List Vec3) (include_hands : Bool) :
    (Nat → ℝ × ℝ × ℝ) × Vec3 :=
  let parents := if include_hands then MHR_BVH_PARENTS else MHR_BVH_BODY_PARENTS
  let pos := extract_bvh_positions_from_mhr kp include_hands
  (fun j => joint_euler parents (compute_rest_directions parents) pos
      (compute_root_rotation kp) j,
   pos 0)

/-- `_compute_rotations` over a frame sequence: the loop body reads only
the current frame's keypoints (and the immutable tables), so the whole
computation is a per-frame map. -/
def compute_rotations (frames : List (List Vec3)) (include_hands : Bool) :
    List ((Nat → ℝ × ℝ × ℝ) × Vec3) :=
  frames.map (fun kp => solve_frame kp include_hands)

/-! ## Conversion entry point (`convert_to_bvh`) -/

/-- The `bvh_data` dictionary returned by a successful `convert_to_bvh`. -/
structure BvhData where
  file_path : String
  num_frames : Nat
  fps : Int
  frame_time : ℝ
  scale : ℝ
  rotations : List (Nat → ℝ × ℝ × ℝ)
  translations : List Vec3
  num_joints : Nat

/-- `convert_to_bvh`: the entire body runs inside `try/except Exception`,
so the function always returns a triple.  The failure points inside the
`try`, in source order: a missing `keypoints_3d` entry raises
`ValueError("Missing keypoints_3d in MHR params")`; `frame_time = 1.0/fps`
raises `ZeroDivisionError` when `fps == 0`; frames shorter than 70
landmarks raise `IndexError` inside extraction; an empty frame sequence
raises in the `np.min` statistics reduction.  Each is caught and turned
into the error triple `({}, "", "MHRtoBVH failed: " + str(e))`; no
validation of fps/scale signs or of the shape happens before processing.
File-system effects (mkdir, suffix fix-up, write) are not modelled. -/
def convert_to_bvh (mhr_keypoints : Option (List (List Vec3)))
    (output_path : String) (fps : Int) (scale : ℝ) (include_hands : Bool) :
    Option BvhData × String × String :=
  match mhr_keypoints with
  | none => (none, "", "MHRtoBVH failed: " ++ "Missing keypoints_3d in MHR params")
  | some frames =>
      if fps = 0 then (none, "", "MHRtoBVH failed: " ++ "float division by zero")
      else if frames.any (fun f => f.length < 70) then
        (none, "", "MHRtoBVH failed: " ++ "index out of bounds for axis of size below 70")
      else if frames.isEmpty then
        (none, "", "MHRtoBVH failed: " ++ "zero-size array to reduction operation fmin")
      else
        (some
          { file_path := output_path
            num_frames := frames.length
            fps := fps
            frame_time := 1 / (fps : ℝ)
            scale := scale
            rotations := (compute_rotations frames include_hands).map Prod.fst
            translations := (compute_rotations frames include_hands).map Prod.snd
            num_joints := numJoints include_hands },
         output_path, "MHRtoBVH Complete")

/-- A synthetic T-pose keypoint frame for the body-only topology: hips,
shoulders, collar and neck landmarks sit exactly at the accumulated
T-pose offsets of the corresponding joints (pelvis at the origin), the
concrete input used to exercise the T-pose invariance property. -/
def tpose_kp : List Vec3 :=
  (List.range 70).map (fun i =>
    if i = 9 then ⟨0.1, 0, 0⟩
    else if i = 10 then ⟨-0.1, 0, 0⟩
    else if i = 5 then ⟨0.2, 0.4, 0⟩
    else if i = 6 then ⟨-0.2, 0.4, 0⟩
    else if i = 67 then ⟨0.1, 0.4, 0⟩
    else if i = 69 then ⟨0, 0.5, 0⟩
    else Vec3.zero)

end MHRBVH

namespace MHRBVH

/-! ## Basic algebra helpers -/

theorem Vec3.ext3 {a b : Vec3} (hx : a.x = b.x) (hy : a.y = b.y)
    (hz : a.z = b.z) : a = b := by
  cases a; cases b; simp_all

theorem Mat3.ext9 {A B : Mat3}
    (h00 : A.m00 = B.m00) (h01 : A.m01 = B.m01) (h02 : A.m02 = B.m02)
    (h10 : A.m10 = B.m10) (h11 : A.m11 = B.m11) (h12 : A.m12 = B.m12)
    (h20 : A.m20 = B.m20) (h21 : A.m21 = B.m21) (h22 : A.m22 = B.m22) :
    A = B := by
  cases A; cases B; simp_all

/-! ## Depth-first traversal of a valid tree (claim C1 machinery) -/

theorem ancN_succ {parents : List Int} :
    ∀ {k i j : Nat}, AncN parents (k + 1) j i →
      ∃ c, 1 ≤ c ∧ c < parents.length ∧ parAt parents c = (j : Int) ∧
        AncN parents k c i := by
  intro k
  induction k with
  | zero =>
    intro i j h
    cases h with
    | step h0 hp h1 hl =>
      cases h0 with
      | refl => exact ⟨i, h1, hl, hp, AncN.refl i⟩
  | succ k ih =>
    intro i j h
    cases h with
    | step h0 hp h1 hl =>
      obtain ⟨c, hc1, hc2, hc3, hc4⟩ := ih h0
      exact ⟨c, hc1, hc2, hc3, AncN.step hc4 hp h1 hl⟩

theorem mem_childrenOf {parents : List Int} {c j : Nat}
    (hc : c < parents.length) (hp : parAt parents c = (j : Int)) :
    c ∈ childrenOf parents j := by
  unfold childrenOf
  refine List.mem_filter.mpr ⟨List.mem_range.mpr hc, ?_⟩
  simpa using hp

theorem mem_dfs {parents : List Int} :
    ∀ (fuel : Nat) {k j i : Nat}, AncN parents k j i → k < fuel →
      i ∈ dfs parents fuel j := by
  intro fuel
  induction fuel with
  | zero => intro k j i _ hk; omega
  | succ fuel ih =>
    intro k j i h hk
    match k, h with
    | 0, AncN.refl _ => exact List.mem_cons_self _ _
    | k + 1, h =>
      obtain ⟨c, hc1, hc2, hc3, hc4⟩ := ancN_succ h
      refine List.mem_cons_of_mem _ (List.mem_flatMap.mpr ⟨c, mem_childrenOf hc2 hc3, ?_⟩)
      exact ih hc4 (by omega)

theorem ancN_prepend {parents : List Int} {c j : Nat} :
    ∀ {k i : Nat}, AncN parents k c i → parAt parents c = (j : Int) →
      1 ≤ c → c < parents.length → AncN parents (k + 1) j i := by
  intro k i h
  induction h with
  | refl c0 =>
    intro hp h1 hl
    exact AncN.step (AncN.refl j) hp h1 hl
  | step h0 hp2 h2 hl2 ih =>
    intro hp h1 hl
    exact AncN.step (ih hp h1 hl) hp2 h2 hl2

theorem ancN_target_lt {parents : List Int} {k j i : Nat}
    (h : AncN parents k j i) (hj : j < parents.length) : i < parents.length := by
  cases h with
  | refl => exact hj
  | step h0 hp h1 hl => exact hl

theorem mem_dfs_ancN {parents : List Int} (hroot : parAt parents 0 = -1) :
    ∀ (fuel : Nat) (j i : Nat), i ∈ dfs parents fuel j →
      ∃ k, AncN parents k j i := by
  intro fuel
  induction fuel with
  | zero => intro j i h; simp [dfs] at h
  | succ fuel ih =>
    intro j i h
    rcases List.mem_cons.mp h with h | h
    · exact ⟨0, by rw [h]; exact AncN.refl j⟩
    · obtain ⟨c, hcmem, hcdfs⟩ := List.mem_flatMap.mp h
      obtain ⟨hcr, hcp⟩ := List.mem_filter.mp hcmem
      have hcl : c < parents.length := List.mem_range.mp hcr
      have hcpar : parAt parents c = (j : Int) := by simpa using hcp
      have hc1 : 1 ≤ c := by
        rcases Nat.eq_zero_or_pos c with rfl | h1
        · rw [hroot] at hcpar; omega
        · exact h1
      obtain ⟨k, hk⟩ := ih c i hcdfs
      exact ⟨k + 1, ancN_prepend hk hcpar hc1 hcl⟩

theorem ancN_d_le {parents : List Int} (d : Nat → Nat)
    (hd : ∀ i, i < parents.length → 1 ≤ i →
      d ((parAt parents i).toNat) < d i) :
    ∀ {k j i : Nat}, AncN parents k j i → d j ≤ d i := by
  intro k j i h
  induction h with
  | refl => exact le_rfl
  | step h0 hp h1 hl ih =>
    have := hd _ hl h1
    rw [hp, Int.toNat_natCast] at this
    omega

theorem ancN_d_lt {parents : List Int} (d : Nat → Nat)
    (hd : ∀ i, i < parents.length → 1 ≤ i →
      d ((parAt parents i).toNat) < d i) :
    ∀ {k j i : Nat}, AncN parents k j i → 1 ≤ k → d j < d i := by
  intro k j i h hk
  cases h with
  | refl => omega
  | step h0 hp h1 hl =>
    have h2 := hd _ hl h1
    rw [hp, Int.toNat_natCast] at h2
    exact lt_of_le_of_lt (ancN_d_le d hd h0) h2

theorem ancN_irrefl {parents : List Int} (d : Nat → Nat)
    (hd : ∀ i, i < parents.length → 1 ≤ i →
      d ((parAt parents i).toNat) < d i)
    {k j : Nat} (h : AncN parents k j j) (hk : 1 ≤ k) : False :=
  lt_irrefl _ (ancN_d_lt d hd h hk)

theorem ancN_chain_le {parents : List Int} (d : Nat → Nat)
    (hd : ∀ i, i < parents.length → 1 ≤ i →
      d ((parAt parents i).toNat) < d i) :
    ∀ {k j i : Nat}, AncN parents k j i → j < parents.length →
      ∃ l : List Nat, l.length = k + 1 ∧ (∀ x ∈ l, x < parents.length) ∧
        l.Nodup ∧ (∀ x ∈ l, d x ≤ d i) := by
  intro k j i h
  induction h with
  | refl j =>
    intro hj
    exact ⟨[j], rfl, by simpa using hj, List.nodup_singleton j, by simp⟩
  | @step k0 j0 p0 i0 h0 hp h1 hl ih =>
    intro hj
    obtain ⟨l, hlen, hmem, hnd, hbd⟩ := ih hj
    have hpd := hd _ hl h1
    rw [hp, Int.toNat_natCast] at hpd
    refine ⟨i0 :: l, by simp [hlen], ?_, ?_, ?_⟩
    · intro x hx
      rcases List.mem_cons.mp hx with rfl | hx
      · exact hl
      · exact hmem x hx
    · refine List.nodup_cons.mpr ⟨fun hmem2 => ?_, hnd⟩
      exact absurd (lt_of_le_of_lt (hbd _ hmem2) hpd) (lt_irrefl _)
    · intro x hx
      rcases List.mem_cons.mp hx with rfl | hx
      · exact le_rfl
      · exact le_of_lt (lt_of_le_of_lt (hbd x hx) hpd)

theorem ancN_k_lt {parents : List Int} (d : Nat → Nat)
    (hd : ∀ i, i < parents.length → 1 ≤ i →
      d ((parAt parents i).toNat) < d i)
    {k j i : Nat} (h : AncN parents k j i) (hj : j < parents.length) :
    k < parents.length := by
  obtain ⟨l, hlen, hmem, hnd, _⟩ := ancN_chain_le d hd h hj
  have hsub : l ⊆ List.range parents.length := fun x hx =>
    List.mem_range.mpr (hmem x hx)
  have := (List.subperm_of_subset hnd hsub).length_le
  rw [hlen, List.length_range] at this
  omega

theorem exists_ancN_root {parents : List Int} (d : Nat → Nat)
    (hpar : ∀ i, i < parents.length → 1 ≤ i →
      0 ≤ parAt parents i ∧ (parAt parents i).toNat < parents.length)
    (hd : ∀ i, i < parents.length → 1 ≤ i →
      d ((parAt parents i).toNat) < d i) :
    ∀ (n i : Nat), d i ≤ n → i < parents.length →
      ∃ k, AncN parents k 0 i := by
  intro n
  induction n with
  | zero =>
    intro i hdi hi
    rcases Nat.eq_zero_or_pos i with rfl | h1
    · exact ⟨0, AncN.refl 0⟩
    · exact absurd (hd i hi h1) (by omega)
  | succ n ih =>
    intro i hdi hi
    rcases Nat.eq_zero_or_pos i with rfl | h1
    · exact ⟨0, AncN.refl 0⟩
    · have hp := hpar i hi h1
      have hdp := hd i hi h1
      obtain ⟨k, hk⟩ := ih ((parAt parents i).toNat) (by omega) hp.2
      exact ⟨k + 1, AncN.step hk (by omega) h1 hi⟩

end MHRBVH

namespace MHRBVH

theorem ancN_total {parents : List Int} :
    ∀ {k a i : Nat}, AncN parents k a i → ∀ {k2 b : Nat},
      AncN parents k2 b i →
      (∃ m, AncN parents m a b) ∨ (∃ m, AncN parents m b a) := by
  intro k a i h
  induction h with
  | refl a0 =>
    intro k2 b h2
    exact Or.inr ⟨k2, h2⟩
  | @step k0 j0 p0 i0 h0 hp h1 hl ih =>
    intro k2 b h2
    cases h2 with
    | refl => exact Or.inl ⟨k0 + 1, AncN.step h0 hp h1 hl⟩
    | @step k3 j3 p3 i3 h20 hp2 h21 hl2 =>
      have hpp : p0 = p3 := by
        rw [hp] at hp2
        exact_mod_cast hp2
      exact ih (hpp ▸ h20)

theorem ancN_zero {parents : List Int} {j i : Nat}
    (h : AncN parents 0 j i) : j = i := by
  cases h; rfl

theorem ancN_no_sibling {parents : List Int} (d : Nat → Nat)
    (hd : ∀ i, i < parents.length → 1 ≤ i →
      d ((parAt parents i).toNat) < d i)
    {c c2 j : Nat} (hpc : parAt parents c = (j : Int))
    (hpc2 : parAt parents c2 = (j : Int))
    (h1 : 1 ≤ c) (hl : c < parents.length)
    (h1b : 1 ≤ c2) (hlb : c2 < parents.length)
    (hne : c ≠ c2) {m : Nat} (h : AncN parents m c c2) : False := by
  have hdjc : d j < d c := by
    have := hd c hl h1
    rwa [hpc, Int.toNat_natCast] at this
  cases h with
  | refl => exact hne rfl
  | @step m0 j0 p0 i0 h0 hp hi hil =>
    have hpj : p0 = j := by
      have hcast : (p0 : Int) = (j : Int) := by rw [← hp, hpc2]
      exact_mod_cast hcast
    rcases Nat.eq_zero_or_pos m0 with rfl | hm0
    · have hce : c = p0 := ancN_zero h0
      rw [hce, hpj] at hdjc
      exact lt_irrefl _ hdjc
    · have hlt : d c < d p0 := ancN_d_lt d hd h0 hm0
      rw [hpj] at hlt
      omega

theorem childrenOf_nodup {parents : List Int} (j : Nat) :
    (childrenOf parents j).Nodup :=
  (List.nodup_range _).filter _

theorem dfs_nodup {parents : List Int} (hroot : parAt parents 0 = -1)
    (d : Nat → Nat)
    (hd : ∀ i, i < parents.length → 1 ≤ i →
      d ((parAt parents i).toNat) < d i) :
    ∀ (fuel j : Nat), (dfs parents fuel j).Nodup := by
  intro fuel
  induction fuel with
  | zero => intro j; simp [dfs]
  | succ fuel ih =>
    intro j
    rw [dfs]
    have hsub : ∀ x ∈ childrenOf parents j,
        x < parents.length ∧ 1 ≤ x ∧ parAt parents x = (j : Int) := by
      intro x hx
      obtain ⟨hxr, hxp⟩ := List.mem_filter.mp hx
      have hxl : x < parents.length := List.mem_range.mp hxr
      have hxpar : parAt parents x = (j : Int) := by simpa using hxp
      refine ⟨hxl, ?_, hxpar⟩
      rcases Nat.eq_zero_or_pos x with rfl | h1
      · rw [hroot] at hxpar; omega
      · exact h1
    refine List.nodup_cons.mpr ⟨?_, ?_⟩
    · intro hmem
      obtain ⟨c, hcmem, hcdfs⟩ := List.mem_flatMap.mp hmem
      obtain ⟨hcl, hc1, hcpar⟩ := hsub c hcmem
      obtain ⟨k, hk⟩ := mem_dfs_ancN hroot fuel c j hcdfs
      exact ancN_irrefl d hd (ancN_prepend hk hcpar hc1 hcl) (by omega)
    · refine List.nodup_flatMap.mpr ⟨fun c _ => ih c, ?_⟩
      rw [List.pairwise_iff_forall_sublist]
      intro c c2 hsl
      have hmemc : c ∈ childrenOf parents j := hsl.subset (by simp)
      have hmemc2 : c2 ∈ childrenOf parents j := hsl.subset (by simp)
      have hne : c ≠ c2 := by
        have hnd2 := hsl.nodup (childrenOf_nodup j)
        simpa using List.nodup_cons.mp hnd2 |>.1
      obtain ⟨hcl, hc1, hcpar⟩ := hsub c hmemc
      obtain ⟨hlb, h1b, hpc2⟩ := hsub c2 hmemc2
      simp only [Function.onFun]
      rw [List.disjoint_left]
      intro i hi hi2
      obtain ⟨k, hk⟩ := mem_dfs_ancN hroot fuel c i hi
      obtain ⟨k2, hk2⟩ := mem_dfs_ancN hroot fuel c2 i hi2
      rcases ancN_total hk hk2 with ⟨m, hm⟩ | ⟨m, hm⟩
      · exact ancN_no_sibling d hd hcpar hpc2 hc1 hcl h1b hlb hne hm
      · exact ancN_no_sibling d hd hpc2 hcpar h1b hlb hc1 hcl (Ne.symm hne) hm

end MHRBVH

namespace MHRBVH

theorem get_bvh_joint_order_perm {parents : List Int} (hv : ValidTree parents) :
    (get_bvh_joint_order parents).Perm (List.range parents.length) := by
  obtain ⟨hlen, hroot, hpar, d, hd⟩ := hv
  refine (List.perm_ext_iff_of_nodup (dfs_nodup hroot d hd _ 0)
    (List.nodup_range _)).mpr ?_
  intro i
  rw [List.mem_range]
  constructor
  · intro hi
    obtain ⟨k, hk⟩ := mem_dfs_ancN hroot _ 0 i hi
    exact ancN_target_lt hk hlen
  · intro hi
    obtain ⟨k, hk⟩ := exists_ancN_root d hpar hd (d i) i le_rfl hi
    exact mem_dfs _ hk (ancN_k_lt d hd hk hlen)

theorem sum_channelCount : ∀ (J : Nat), 0 < J →
    ((List.range J).map channelCount).sum = 6 + 3 * (J - 1) := by
  intro J
  induction J with
  | zero => omega
  | succ n ih =>
    intro _
    rcases Nat.eq_zero_or_pos n with rfl | hn
    · decide
    · have hcc : channelCount n = 3 := by
        unfold channelCount
        rw [if_neg (by omega)]
      rw [List.range_succ, List.map_append, List.sum_append, ih hn]
      simp [hcc]
      omega

theorem write_joint_channels_eq (parents : List Int) :
    ∀ (fuel j : Nat), write_joint_channels parents fuel j
      = (dfs parents fuel j).map (fun i => (i, channelCount i)) := by
  intro fuel
  induction fuel with
  | zero => intro j; simp [write_joint_channels, dfs]
  | succ fuel ih =>
    intro j
    rw [write_joint_channels, dfs, List.map_cons]
    have hfe : write_joint_channels parents fuel
        = fun a => (dfs parents fuel a).map (fun i => (i, channelCount i)) :=
      funext ih
    rw [hfe, List.map_flatMap]

theorem jointChunk_length (rot : Nat → ℝ × ℝ × ℝ) (trans : ℝ × ℝ × ℝ)
    (scale : ℝ) (j : Nat) :
    (jointChunk rot trans scale j).length = channelCount j := by
  unfold jointChunk channelCount
  split <;> simp

/-- C1: for every valid single-root tree topology and every animation,
each MOTION frame line holds exactly `6 + 3 * (J - 1)` values, laid out
in the depth-first hierarchy order: the root contributes its scaled
translation then its (Z,X,Y) Euler triple and every other joint exactly
its (Z,X,Y) Euler triple, so the count and order agree with the channel
declarations of the depth-first HIERARCHY traversal (the traversal visits
every joint exactly once). -/
theorem C1_motion_line_channels (parents : List Int) (hv : ValidTree parents)
    (rot : Nat → ℝ × ℝ × ℝ) (trans : ℝ × ℝ × ℝ) (scale : ℝ) :
    frame_line (get_bvh_joint_order parents) rot trans scale
        = (get_bvh_joint_order parents).flatMap (jointChunk rot trans scale) ∧
    (get_bvh_joint_order parents).Perm (List.range parents.length) ∧
    write_joint_channels parents parents.length 0
        = (get_bvh_joint_order parents).map (fun i => (i, channelCount i)) ∧
    (∀ j, (jointChunk rot trans scale j).length = channelCount j) ∧
    (frame_line (get_bvh_joint_order parents) rot trans scale).length
        = ((write_joint_channels parents parents.length 0).map Prod.snd).sum ∧
    (frame_line (get_bvh_joint_order parents) rot trans scale).length
        = 6 + 3 * (parents.length - 1) := by
  have hperm := get_bvh_joint_order_perm hv
  have hlen0 : 0 < parents.length := hv.1
  have hmapeq : (get_bvh_joint_order parents).map
      (fun j => (jointChunk rot trans scale j).length)
      = (get_bvh_joint_order parents).map channelCount :=
    List.map_congr_left (fun j _ => jointChunk_length rot trans scale j)
  have hflen : (frame_line (get_bvh_joint_order parents) rot trans scale).length
      = ((get_bvh_joint_order parents).map channelCount).sum := by
    unfold frame_line
    rw [List.length_flatMap, ← hmapeq]
    rfl
  refine ⟨rfl, hperm, write_joint_channels_eq parents _ 0, 
    jointChunk_length rot trans scale, ?_, ?_⟩
  · rw [hflen, write_joint_channels_eq parents _ 0, List.map_map]
    rfl
  · rw [hflen, (hperm.map channelCount).sum_eq, sum_channelCount _ hlen0]

/-- Witness for C1: the shipped 52-joint body+hands topology is a valid
single-root tree and every motion line of any animation over it holds
exactly `6 + 3 * 51 = 159` values. -/
theorem C1_motion_line_channels_witness :
    ValidTree MHR_BVH_PARENTS ∧
    (frame_line (get_bvh_joint_order MHR_BVH_PARENTS)
      (fun _ => (0, 0, 0)) (0, 0, 0) 1).length
      = 6 + 3 * (MHR_BVH_PARENTS.length - 1) := by
  have hv : ValidTree MHR_BVH_PARENTS :=
    ⟨by decide, by decide, by decide, id, by decide⟩
  exact ⟨hv,
    (C1_motion_line_channels MHR_BVH_PARENTS hv _ _ _).2.2.2.2.2⟩

end MHRBVH

namespace MHRBVH

/-! ## Vector algebra facts -/

theorem Vec3.normSq_nonneg (a : Vec3) : 0 ≤ Vec3.normSq a := by
  unfold Vec3.normSq
  nlinarith [sq_nonneg a.x, sq_nonneg a.y, sq_nonneg a.z]

theorem Vec3.norm_nonneg (a : Vec3) : 0 ≤ Vec3.norm a :=
  Real.sqrt_nonneg _

theorem Vec3.norm_sq_eq (a : Vec3) : Vec3.norm a * Vec3.norm a = Vec3.normSq a :=
  Real.mul_self_sqrt (Vec3.normSq_nonneg a)

theorem Vec3.norm_eq_of_sq {a : Vec3} {r : ℝ} (hr : 0 ≤ r)
    (h : Vec3.normSq a = r * r) : Vec3.norm a = r := by
  unfold Vec3.norm
  rw [h]
  exact Real.sqrt_mul_self hr

theorem Vec3.norm_pos_of_le {a : Vec3} {c : ℝ} (hc : 0 < c)
    (h : ¬ Vec3.norm a < c) : 0 < Vec3.norm a :=
  lt_of_lt_of_le hc (not_lt.mp h)

theorem Vec3.normSq_smul (c : ℝ) (a : Vec3) :
    Vec3.normSq (Vec3.smul c a) = c ^ 2 * Vec3.normSq a := by
  unfold Vec3.normSq Vec3.smul
  ring

theorem Vec3.norm_smul_nonneg {c : ℝ} (hc : 0 ≤ c) (a : Vec3) :
    Vec3.norm (Vec3.smul c a) = c * Vec3.norm a := by
  unfold Vec3.norm
  rw [Vec3.normSq_smul, Real.sqrt_mul (by positivity), Real.sqrt_sq hc]

theorem Vec3.normSq_normalized {a : Vec3} (h : 0 < Vec3.norm a) :
    Vec3.normSq (Vec3.smul (1 / Vec3.norm a) a) = 1 := by
  rw [Vec3.normSq_smul]
  have h2 := Vec3.norm_sq_eq a
  field_simp
  nlinarith [h2]

/-- Lagrange identity for the cross product. -/
theorem Vec3.normSq_cross (a b : Vec3) :
    Vec3.normSq (Vec3.cross a b)
      = Vec3.normSq a * Vec3.normSq b - (Vec3.dot a b) ^ 2 := by
  unfold Vec3.normSq Vec3.cross Vec3.dot
  ring

theorem Vec3.dot_cross_left (a b : Vec3) :
    Vec3.dot (Vec3.cross a b) a = 0 := by
  unfold Vec3.dot Vec3.cross
  ring

theorem Vec3.dot_cross_right (a b : Vec3) :
    Vec3.dot (Vec3.cross a b) b = 0 := by
  unfold Vec3.dot Vec3.cross
  ring

theorem Vec3.dot_smul_left (c : ℝ) (a b : Vec3) :
    Vec3.dot (Vec3.smul c a) b = c * Vec3.dot a b := by
  unfold Vec3.dot Vec3.smul
  ring

theorem Vec3.dot_smul_right (c : ℝ) (a b : Vec3) :
    Vec3.dot a (Vec3.smul c b) = c * Vec3.dot a b := by
  unfold Vec3.dot Vec3.smul
  ring

theorem Vec3.cross_smul_left (c : ℝ) (a b : Vec3) :
    Vec3.cross (Vec3.smul c a) b = Vec3.smul c (Vec3.cross a b) := by
  unfold Vec3.cross Vec3.smul
  exact Vec3.ext3 (by ring) (by ring) (by ring)

theorem Vec3.cross_smul_right (c : ℝ) (a b : Vec3) :
    Vec3.cross a (Vec3.smul c b) = Vec3.smul c (Vec3.cross a b) := by
  unfold Vec3.cross Vec3.smul
  exact Vec3.ext3 (by ring) (by ring) (by ring)

theorem Vec3.cross_self (a : Vec3) : Vec3.cross a a = Vec3.zero := by
  unfold Vec3.cross Vec3.zero
  exact Vec3.ext3 (by ring) (by ring) (by ring)

theorem Vec3.cross_neg_right (a : Vec3) :
    Vec3.cross a (Vec3.neg a) = Vec3.zero := by
  unfold Vec3.cross Vec3.neg Vec3.zero
  exact Vec3.ext3 (by ring) (by ring) (by ring)

theorem Vec3.norm_zero_vec : Vec3.norm Vec3.zero = 0 := by
  unfold Vec3.norm Vec3.normSq Vec3.zero
  simpa using Real.sqrt_zero

/-- Cauchy-Schwarz for 3-vectors, from the Lagrange identity. -/
theorem Vec3.dot_sq_le (a b : Vec3) :
    (Vec3.dot a b) ^ 2 ≤ Vec3.normSq a * Vec3.normSq b := by
  have := Vec3.normSq_nonneg (Vec3.cross a b)
  have := Vec3.normSq_cross a b
  nlinarith

end MHRBVH

namespace MHRBVH

/-! ## Rodrigues rotation algebra -/

theorem rodrigues_eq_rodM (ax : Vec3) (ang : ℝ) :
    rodrigues ax ang = rodM ax (Real.sin ang) (1 - Real.cos ang) := rfl

theorem Kmat_mulVec (a v : Vec3) :
    Mat3.mulVec (Kmat a) v = Vec3.cross a v := by
  unfold Mat3.mulVec Kmat Vec3.cross
  exact Vec3.ext3 (by ring) (by ring) (by ring)

theorem Mat3.one_mulVec (v : Vec3) : Mat3.mulVec Mat3.one v = v := by
  unfold Mat3.mulVec Mat3.one
  exact Vec3.ext3 (by ring) (by ring) (by ring)

theorem Mat3.one_mul (A : Mat3) : Mat3.mul Mat3.one A = A := by
  unfold Mat3.mul Mat3.one
  exact Mat3.ext9 (by ring) (by ring) (by ring) (by ring) (by ring)
    (by ring) (by ring) (by ring) (by ring)

theorem Mat3.mul_one (A : Mat3) : Mat3.mul A Mat3.one = A := by
  unfold Mat3.mul Mat3.one
  exact Mat3.ext9 (by ring) (by ring) (by ring) (by ring) (by ring)
    (by ring) (by ring) (by ring) (by ring)

theorem Mat3.one_orthonormal : Mat3.Orthonormal Mat3.one := by
  unfold Mat3.Orthonormal Mat3.transpose Mat3.mul Mat3.one
  exact Mat3.ext9 (by ring) (by ring) (by ring) (by ring) (by ring)
    (by ring) (by ring) (by ring) (by ring)

theorem Vec3.cross_cross (a v : Vec3) :
    Vec3.cross a (Vec3.cross a v)
      = Vec3.sub (Vec3.smul (Vec3.dot a v) a) (Vec3.smul (Vec3.normSq a) v) := by
  unfold Vec3.cross Vec3.sub Vec3.smul Vec3.dot Vec3.normSq
  exact Vec3.ext3 (by ring) (by ring) (by ring)

/-- Pure polynomial identity: the transpose-product of the Rodrigues
combination differs from the identity by a scalar multiple of `K^2`. -/
theorem rodM_transpose_mul (a : Vec3) (s t : ℝ) :
    Mat3.mul (Mat3.transpose (rodM a s t)) (rodM a s t)
      = Mat3.add Mat3.one
          (Mat3.smul (2 * t - s ^ 2 - Vec3.normSq a * t ^ 2)
            (Mat3.mul (Kmat a) (Kmat a))) := by
  unfold rodM Mat3.mul Mat3.transpose Mat3.add Mat3.smul Mat3.one Kmat Vec3.normSq
  exact Mat3.ext9 (by ring) (by ring) (by ring) (by ring) (by ring)
    (by ring) (by ring) (by ring) (by ring)

theorem Mat3.add_smul_zero (M : Mat3) :
    Mat3.add Mat3.one (Mat3.smul 0 M) = Mat3.one := by
  unfold Mat3.add Mat3.smul Mat3.one
  exact Mat3.ext9 (by ring) (by ring) (by ring) (by ring) (by ring)
    (by ring) (by ring) (by ring) (by ring)

theorem rodM_orthonormal {a : Vec3} {s t : ℝ} (hA : Vec3.normSq a = 1)
    (hS : s ^ 2 = 2 * t - t ^ 2) : Mat3.Orthonormal (rodM a s t) := by
  unfold Mat3.Orthonormal
  rw [rodM_transpose_mul, hA, hS]
  have hz : 2 * t - (2 * t - t ^ 2) - 1 * t ^ 2 = 0 := by ring
  rw [hz, Mat3.add_smul_zero]

/-- Pure polynomial identity for the determinant of the Rodrigues
combination. -/
theorem rodM_det (a : Vec3) (s t : ℝ) :
    Mat3.det (rodM a s t)
      = (1 - t * Vec3.normSq a) ^ 2 + Vec3.normSq a * s ^ 2 := by
  unfold rodM Mat3.det Mat3.add Mat3.smul Mat3.mul Mat3.one Kmat Vec3.normSq
  ring

theorem rodM_det_one {a : Vec3} {s t : ℝ} (hA : Vec3.normSq a = 1)
    (hS : s ^ 2 = 2 * t - t ^ 2) : Mat3.det (rodM a s t) = 1 := by
  rw [rodM_det, hA, hS]
  ring

theorem rodM_mulVec (a : Vec3) (s t : ℝ) (v : Vec3) :
    Mat3.mulVec (rodM a s t) v
      = Vec3.add (Vec3.add v (Vec3.smul s (Vec3.cross a v)))
          (Vec3.smul t (Vec3.cross a (Vec3.cross a v))) := by
  unfold rodM Mat3.mulVec Mat3.add Mat3.smul Mat3.mul Mat3.one Kmat
    Vec3.add Vec3.smul Vec3.cross
  exact Vec3.ext3 (by ring) (by ring) (by ring)

theorem rodM_mulVec_perp {a v : Vec3} (s t : ℝ) (hA : Vec3.normSq a = 1)
    (hperp : Vec3.dot a v = 0) :
    Mat3.mulVec (rodM a s t) v
      = Vec3.add (Vec3.smul (1 - t) v) (Vec3.smul s (Vec3.cross a v)) := by
  rw [rodM_mulVec, Vec3.cross_cross, hperp, hA]
  unfold Vec3.add Vec3.smul Vec3.sub
  exact Vec3.ext3 (by ring) (by ring) (by ring)

theorem rodM_mulVec_axis {a : Vec3} (s t : ℝ) :
    Mat3.mulVec (rodM a s t) a = a := by
  rw [rodM_mulVec, Vec3.cross_self]
  unfold Vec3.add Vec3.smul Vec3.cross Vec3.zero
  exact Vec3.ext3 (by ring) (by ring) (by ring)

theorem rot180_eq_rodM {a : Vec3} (hA : Vec3.normSq a = 1) :
    rot180 a = rodM a 0 2 := by
  have hA2 : a.x * a.x + a.y * a.y + a.z * a.z = 1 := hA
  unfold rot180 rodM Mat3.add Mat3.smul Mat3.mul Mat3.one Mat3.outer Kmat
  exact Mat3.ext9 (by linear_combination (2 : ℝ) * hA2) (by ring) (by ring)
    (by ring) (by linear_combination (2 : ℝ) * hA2) (by ring)
    (by ring) (by ring) (by linear_combination (2 : ℝ) * hA2)

theorem rot180_orthonormal {a : Vec3} (hA : Vec3.normSq a = 1) :
    Mat3.Orthonormal (rot180 a) := by
  rw [rot180_eq_rodM hA]
  exact rodM_orthonormal hA (by norm_num)

theorem rot180_det {a : Vec3} (hA : Vec3.normSq a = 1) :
    Mat3.det (rot180 a) = 1 := by
  rw [rot180_eq_rodM hA]
  exact rodM_det_one hA (by norm_num)

theorem rot180_mulVec_perp {a v : Vec3} (hA : Vec3.normSq a = 1)
    (hperp : Vec3.dot a v = 0) :
    Mat3.mulVec (rot180 a) v = Vec3.neg v := by
  rw [rot180_eq_rodM hA, rodM_mulVec_perp 0 2 hA hperp]
  unfold Vec3.add Vec3.smul Vec3.neg
  exact Vec3.ext3 (by ring) (by ring) (by ring)

end MHRBVH

namespace MHRBVH

theorem Vec3.smul_smul (c c2 : ℝ) (a : Vec3) :
    Vec3.smul c (Vec3.smul c2 a) = Vec3.smul (c * c2) a := by
  unfold Vec3.smul
  exact Vec3.ext3 (by ring) (by ring) (by ring)

theorem Vec3.smul_one_eq (a : Vec3) : Vec3.smul 1 a = a := by
  unfold Vec3.smul
  exact Vec3.ext3 (by ring) (by ring) (by ring)

theorem Vec3.norm_pos_of_normSq_pos {a : Vec3} (h : 0 < Vec3.normSq a) :
    0 < Vec3.norm a :=
  Real.sqrt_pos.mpr h

theorem Vec3.normalize_smul_pos {c : ℝ} (hcpos : 0 < c) {w : Vec3}
    (hw : 0 < Vec3.norm w) :
    Vec3.normalize (Vec3.smul c w) = Vec3.normalize w := by
  unfold Vec3.normalize
  rw [Vec3.norm_smul_nonneg (le_of_lt hcpos), Vec3.smul_smul]
  congr 1
  field_simp

theorem Vec3.normSq_neg (a : Vec3) : Vec3.normSq (Vec3.neg a) = Vec3.normSq a := by
  unfold Vec3.normSq Vec3.neg
  ring

theorem Vec3.dot_abs_le_one {u v : Vec3} (hu : Vec3.normSq u = 1)
    (hv : Vec3.normSq v = 1) : -1 ≤ Vec3.dot u v ∧ Vec3.dot u v ≤ 1 := by
  have h := Vec3.dot_sq_le u v
  rw [hu, hv] at h
  constructor <;> nlinarith

/-- Evaluation of `rotation_matrix_from_vectors` on unit vectors whose
cross product is large enough to reach the Rodrigues branch: the axis is
the normalised cross product of the *inputs* (the `+ 1e-8`
regularisation cancels there), but the angle is the arccosine of the dot
product shrunk by `(1 + 1e-8)^2`. -/
theorem rmfv_rodrigues {u v : Vec3} (hu : Vec3.normSq u = 1)
    (hv : Vec3.normSq v = 1)
    (hc : 1e-8 * (1 + 1e-8) ^ 2 ≤ Vec3.norm (Vec3.cross u v)) :
    rotation_matrix_from_vectors u v
      = rodrigues (Vec3.normalize (Vec3.cross u v))
          (Real.arccos (Vec3.dot u v / (1 + 1e-8) ^ 2)) := by
  have hnu : Vec3.norm u = 1 := Vec3.norm_eq_of_sq (by norm_num) (by rw [hu]; ring)
  have hnv : Vec3.norm v = 1 := Vec3.norm_eq_of_sq (by norm_num) (by rw [hv]; ring)
  have hN0 : (0 : ℝ) < Vec3.norm (Vec3.cross u v) :=
    lt_of_lt_of_le (by norm_num) hc
  simp only [rotation_matrix_from_vectors]
  rw [hnu, hnv, Vec3.cross_smul_left, Vec3.cross_smul_right, Vec3.smul_smul,
    Vec3.norm_smul_nonneg (by positivity), Vec3.dot_smul_left, Vec3.dot_smul_right]
  have hcond : ¬ (1 / (1 + 1e-8) * (1 / (1 + 1e-8))
      * Vec3.norm (Vec3.cross u v) < 1e-8) := by
    rw [not_lt]
    have heq : 1 / (1 + 1e-8) * (1 / (1 + 1e-8)) * Vec3.norm (Vec3.cross u v)
        = Vec3.norm (Vec3.cross u v) / (1 + 1e-8) ^ 2 := by ring
    rw [heq, le_div_iff (by norm_num)]
    calc (1e-8 : ℝ) * (1 + 1e-8) ^ 2 ≤ Vec3.norm (Vec3.cross u v) := hc
    _ = Vec3.norm (Vec3.cross u v) := rfl
  rw [if_neg hcond]
  have hdots := Vec3.dot_abs_le_one hu hv
  have hd : 1 / (1 + 1e-8) * (1 / (1 + 1e-8) * Vec3.dot u v)
      = Vec3.dot u v / (1 + 1e-8) ^ 2 := by ring
  have hlo : (-1 : ℝ) ≤ Vec3.dot u v / (1 + 1e-8) ^ 2 := by
    rw [le_div_iff (by norm_num)]
    nlinarith [hdots.1]
  have hhi : Vec3.dot u v / (1 + 1e-8) ^ 2 ≤ 1 := by
    rw [div_le_iff (by norm_num)]
    nlinarith [hdots.2]
  congr 1
  · rw [Vec3.smul_smul]
    unfold Vec3.normalize
    congr 1
    have hN' : Vec3.norm (Vec3.cross u v) ≠ 0 := ne_of_gt hN0
    field_simp
    ring
  · rw [hd]
    unfold clip
    rw [max_eq_left hlo, min_eq_left hhi]

/-- Evaluation of `rotation_matrix_from_vectors` on a unit vector and its
exact opposite: the anti-parallel branch fires and the result is the
half-turn about the normalised cross of the input with world X when
`|u.x| < 0.9 * (1 + 1e-8)` (equivalently, the internally renormalised
vector has `|x| < 0.9`), else with world Y. -/
theorem rmfv_neg {u : Vec3} (hu : Vec3.normSq u = 1) :
    rotation_matrix_from_vectors u (Vec3.neg u)
      = rot180 (Vec3.normalize (Vec3.cross u
          (if |u.x| < 0.9 * (1 + 1e-8) then Vec3.ex else Vec3.ey))) := by
  have hnu : Vec3.norm u = 1 := Vec3.norm_eq_of_sq (by norm_num) (by rw [hu]; ring)
  have hnnu : Vec3.norm (Vec3.neg u) = 1 := by
    unfold Vec3.norm
    rw [Vec3.normSq_neg]
    exact hnu
  simp only [rotation_matrix_from_vectors]
  rw [hnu, hnnu, Vec3.cross_smul_left, Vec3.cross_smul_right, Vec3.smul_smul,
    Vec3.cross_neg_right]
  have hz : Vec3.smul (1 / (1 + 1e-8) * (1 / (1 + 1e-8))) Vec3.zero = Vec3.zero := by
    unfold Vec3.smul Vec3.zero
    exact Vec3.ext3 (by ring) (by ring) (by ring)
  rw [hz, Vec3.norm_zero_vec, if_pos (by norm_num)]
  have hdneg : Vec3.dot (Vec3.smul (1 / (1 + 1e-8)) u)
      (Vec3.smul (1 / (1 + 1e-8)) (Vec3.neg u)) < 0 := by
    rw [Vec3.dot_smul_left, Vec3.dot_smul_right]
    have hduu : Vec3.dot u (Vec3.neg u) = -1 := by
      have : Vec3.dot u (Vec3.neg u) = -Vec3.normSq u := by
        unfold Vec3.dot Vec3.neg Vec3.normSq
        ring
      rw [this, hu]
    rw [hduu]
    nlinarith
  rw [if_neg (by push_neg; nlinarith [hdneg])]
  have hxiff : (|(Vec3.smul (1 / (1 + 1e-8)) u).x| < 0.9)
      = (|u.x| < 0.9 * (1 + 1e-8)) := by
    unfold Vec3.smul
    simp only
    rw [abs_mul, abs_of_pos (show (0:ℝ) < 1 / (1 + 1e-8) by norm_num)]
    refine propext ⟨fun h => ?_, fun h => ?_⟩
    · nlinarith
    · nlinarith
  simp only [hxiff]
  by_cases hx : |u.x| < 0.9 * (1 + 1e-8)
  · rw [if_pos hx, Vec3.cross_smul_left]
    congr 1
    refine Vec3.normalize_smul_pos (by norm_num) (Vec3.norm_pos_of_normSq_pos ?_)
    have hcx : Vec3.normSq (Vec3.cross u Vec3.ex) = u.y * u.y + u.z * u.z := by
      unfold Vec3.normSq Vec3.cross Vec3.ex
      ring
    rw [hcx]
    have hx2 : u.x * u.x < 1 := by
      have habs : |u.x| < 1 := lt_of_lt_of_le hx (by norm_num)
      nlinarith [abs_nonneg u.x, sq_abs u.x]
    have := hu
    unfold Vec3.normSq at this
    nlinarith
  · rw [if_neg hx, Vec3.cross_smul_left]
    congr 1
    refine Vec3.normalize_smul_pos (by norm_num) (Vec3.norm_pos_of_normSq_pos ?_)
    have hcy : Vec3.normSq (Vec3.cross u Vec3.ey) = u.x * u.x + u.z * u.z := by
      unfold Vec3.normSq Vec3.cross Vec3.ey
      ring
    rw [hcy]
    push_neg at hx
    have hx2 : (0.81 : ℝ) ≤ u.x * u.x := by
      nlinarith [sq_abs u.x, abs_nonneg u.x]
    nlinarith [sq_nonneg u.z]

end MHRBVH

namespace MHRBVH

theorem Vec3.cross_cross_right (u v : Vec3) :
    Vec3.cross (Vec3.cross u v) u
      = Vec3.sub (Vec3.smul (Vec3.normSq u) v) (Vec3.smul (Vec3.dot u v) u) := by
  unfold Vec3.cross Vec3.sub Vec3.smul Vec3.normSq Vec3.dot
  exact Vec3.ext3 (by ring) (by ring) (by ring)

theorem Vec3.normSq_normalized_of_pos {a : Vec3} (h : 0 < Vec3.norm a) :
    Vec3.normSq (Vec3.normalize a) = 1 :=
  Vec3.normSq_normalized h

theorem Vec3.dot_normalize_cross_left (u v : Vec3) :
    Vec3.dot (Vec3.normalize (Vec3.cross u v)) u = 0 := by
  unfold Vec3.normalize
  rw [Vec3.dot_smul_left, Vec3.dot_cross_left]
  ring

/-- C4 (amended): on unit vectors whose cross-product norm is at least
`1e-8 * (1 + 1e-8)^2` (the threshold the `+ 1e-8` input regularisation
actually induces), `rotation_matrix_from_vectors u v` is the Rodrigues
rotation about the axis `normalize(cross(u, v))` by the angle
`arccos(dot(u, v) / (1 + 1e-8)^2)`: it is orthonormal with determinant 1,
fixes the axis, and maps `u` to `cos θ * u + sin θ * (axis × u)` — which
equals `v` exactly when `dot(u, v) = 0` (for non-orthogonal pairs the
angle shrinkage keeps `R u` a tiny angle short of `v`). -/
theorem C4_minimal_rotation_amended (u v : Vec3) (hu : Vec3.normSq u = 1)
    (hv : Vec3.normSq v = 1)
    (hc : 1e-8 * (1 + 1e-8) ^ 2 ≤ Vec3.norm (Vec3.cross u v)) :
    rotation_matrix_from_vectors u v
        = rodrigues (Vec3.normalize (Vec3.cross u v))
            (Real.arccos (Vec3.dot u v / (1 + 1e-8) ^ 2)) ∧
    Mat3.Orthonormal (rotation_matrix_from_vectors u v) ∧
    Mat3.det (rotation_matrix_from_vectors u v) = 1 ∧
    Mat3.mulVec (rotation_matrix_from_vectors u v)
        (Vec3.normalize (Vec3.cross u v)) = Vec3.normalize (Vec3.cross u v) ∧
    Mat3.mulVec (rotation_matrix_from_vectors u v) u
        = Vec3.add
            (Vec3.smul (Real.cos (Real.arccos (Vec3.dot u v / (1 + 1e-8) ^ 2))) u)
            (Vec3.smul (Real.sin (Real.arccos (Vec3.dot u v / (1 + 1e-8) ^ 2)))
              (Vec3.cross (Vec3.normalize (Vec3.cross u v)) u)) ∧
    Real.cos (Real.arccos (Vec3.dot u v / (1 + 1e-8) ^ 2))
        = Vec3.dot u v / (1 + 1e-8) ^ 2 ∧
    (Vec3.dot u v = 0 → Mat3.mulVec (rotation_matrix_from_vectors u v) u = v) := by
  have hN0 : (0 : ℝ) < Vec3.norm (Vec3.cross u v) :=
    lt_of_lt_of_le (by norm_num) hc
  have heq := rmfv_rodrigues hu hv hc
  have hA : Vec3.normSq (Vec3.normalize (Vec3.cross u v)) = 1 :=
    Vec3.normSq_normalized hN0
  have hperp : Vec3.dot (Vec3.normalize (Vec3.cross u v)) u = 0 :=
    Vec3.dot_normalize_cross_left u v
  have hdots := Vec3.dot_abs_le_one hu hv
  have hlo : (-1 : ℝ) ≤ Vec3.dot u v / (1 + 1e-8) ^ 2 := by
    rw [le_div_iff (by norm_num)]
    nlinarith [hdots.1]
  have hhi : Vec3.dot u v / (1 + 1e-8) ^ 2 ≤ 1 := by
    rw [div_le_iff (by norm_num)]
    nlinarith [hdots.2]
  have hcos : Real.cos (Real.arccos (Vec3.dot u v / (1 + 1e-8) ^ 2))
      = Vec3.dot u v / (1 + 1e-8) ^ 2 := Real.cos_arccos hlo hhi
  have hS : (Real.sin (Real.arccos (Vec3.dot u v / (1 + 1e-8) ^ 2))) ^ 2
      = 2 * (1 - Real.cos (Real.arccos (Vec3.dot u v / (1 + 1e-8) ^ 2)))
        - (1 - Real.cos (Real.arccos (Vec3.dot u v / (1 + 1e-8) ^ 2))) ^ 2 := by
    have hpyth := Real.sin_sq_add_cos_sq
      (Real.arccos (Vec3.dot u v / (1 + 1e-8) ^ 2))
    nlinarith [hpyth]
  have horth : Mat3.Orthonormal (rotation_matrix_from_vectors u v) := by
    rw [heq, rodrigues_eq_rodM]
    exact rodM_orthonormal hA hS
  have hdet : Mat3.det (rotation_matrix_from_vectors u v) = 1 := by
    rw [heq, rodrigues_eq_rodM]
    exact rodM_det_one hA hS
  have haxis : Mat3.mulVec (rotation_matrix_from_vectors u v)
      (Vec3.normalize (Vec3.cross u v)) = Vec3.normalize (Vec3.cross u v) := by
    rw [heq, rodrigues_eq_rodM]
    exact rodM_mulVec_axis _ _
  have hone : (1 : ℝ) - (1 - Real.cos (Real.arccos (Vec3.dot u v / (1 + 1e-8) ^ 2)))
      = Real.cos (Real.arccos (Vec3.dot u v / (1 + 1e-8) ^ 2)) := by ring
  have hRu : Mat3.mulVec (rotation_matrix_from_vectors u v) u
      = Vec3.add
          (Vec3.smul (Real.cos (Real.arccos (Vec3.dot u v / (1 + 1e-8) ^ 2))) u)
          (Vec3.smul (Real.sin (Real.arccos (Vec3.dot u v / (1 + 1e-8) ^ 2)))
            (Vec3.cross (Vec3.normalize (Vec3.cross u v)) u)) := by
    rw [heq, rodrigues_eq_rodM, rodM_mulVec_perp _ _ hA hperp, hone]
  refine ⟨heq, horth, hdet, haxis, hRu, hcos, ?_⟩
  intro hd0
  rw [hRu]
  have hNval : Vec3.norm (Vec3.cross u v) = 1 := by
    refine Vec3.norm_eq_of_sq (by norm_num) ?_
    rw [Vec3.normSq_cross, hu, hv, hd0]
    ring
  have hnormalize : Vec3.normalize (Vec3.cross u v) = Vec3.cross u v := by
    unfold Vec3.normalize
    rw [hNval]
    norm_num
    exact Vec3.smul_one_eq _
  have hd0' : Vec3.dot u v / (1 + 1e-8) ^ 2 = 0 := by rw [hd0]; ring
  rw [hd0', hnormalize, Real.cos_arccos (by norm_num) (by norm_num),
    Real.sin_arccos]
  have hsq1 : Real.sqrt (1 - (0 : ℝ) ^ 2) = 1 := by
    norm_num
  rw [hsq1, Vec3.cross_cross_right, hu, hd0]
  unfold Vec3.add Vec3.smul Vec3.sub
  exact Vec3.ext3 (by ring) (by ring) (by ring)

/-- Witness for C4 (amended) at the orthogonal unit pair world-X,
world-Y: the hypotheses hold and the rotation maps the first vector
exactly onto the second. -/
theorem C4_minimal_rotation_amended_witness :
    (Vec3.normSq Vec3.ex = 1 ∧ Vec3.normSq Vec3.ey = 1 ∧
      1e-8 * (1 + 1e-8) ^ 2 ≤ Vec3.norm (Vec3.cross Vec3.ex Vec3.ey) ∧
      Vec3.dot Vec3.ex Vec3.ey = 0) ∧
    Mat3.mulVec (rotation_matrix_from_vectors Vec3.ex Vec3.ey) Vec3.ex
      = Vec3.ey := by
  have h1 : Vec3.normSq Vec3.ex = 1 := by
    unfold Vec3.normSq Vec3.ex
    norm_num
  have h2 : Vec3.normSq Vec3.ey = 1 := by
    unfold Vec3.normSq Vec3.ey
    norm_num
  have h3 : Vec3.norm (Vec3.cross Vec3.ex Vec3.ey) = 1 := by
    refine Vec3.norm_eq_of_sq (by norm_num) ?_
    unfold Vec3.normSq Vec3.cross Vec3.ex Vec3.ey
    norm_num
  have h4 : Vec3.dot Vec3.ex Vec3.ey = 0 := by
    unfold Vec3.dot Vec3.ex Vec3.ey
    norm_num
  have h5 : 1e-8 * (1 + 1e-8) ^ 2 ≤ Vec3.norm (Vec3.cross Vec3.ex Vec3.ey) := by
    rw [h3]
    norm_num
  exact ⟨⟨h1, h2, h5, h4⟩,
    (C4_minimal_rotation_amended Vec3.ex Vec3.ey h1 h2 h5).2.2.2.2.2.2 h4⟩

/-- Counterexample for C4 as stated: at the unit pair
`u = (1,0,0)`, `v = (3/5, 4/5, 0)` (cross norm `4/5`, far above the
`1e-8` threshold of the claim), the returned matrix does not satisfy
`R u = v`: its angle is `arccos(dot/(1+1e-8)^2)`, not `arccos(dot)`, so
`(R u).x = (3/5)/(1+1e-8)^2 ≠ 3/5`. -/
theorem C4_counterexample :
    Vec3.normSq Vec3.ex = 1 ∧ Vec3.normSq (⟨3/5, 4/5, 0⟩ : Vec3) = 1 ∧
    (1e-8 : ℝ) ≤ Vec3.norm (Vec3.cross Vec3.ex ⟨3/5, 4/5, 0⟩) ∧
    Mat3.mulVec (rotation_matrix_from_vectors Vec3.ex ⟨3/5, 4/5, 0⟩) Vec3.ex
      ≠ (⟨3/5, 4/5, 0⟩ : Vec3) := by
  have h1 : Vec3.normSq Vec3.ex = 1 := by
    unfold Vec3.normSq Vec3.ex
    norm_num
  have h2 : Vec3.normSq (⟨3/5, 4/5, 0⟩ : Vec3) = 1 := by
    unfold Vec3.normSq
    norm_num
  have h3 : Vec3.norm (Vec3.cross Vec3.ex ⟨3/5, 4/5, 0⟩) = 4/5 := by
    refine Vec3.norm_eq_of_sq (by norm_num) ?_
    unfold Vec3.normSq Vec3.cross Vec3.ex
    norm_num
  have h5 : 1e-8 * (1 + 1e-8) ^ 2 ≤ Vec3.norm (Vec3.cross Vec3.ex ⟨3/5, 4/5, 0⟩) := by
    rw [h3]
    norm_num
  have hmain := C4_minimal_rotation_amended Vec3.ex ⟨3/5, 4/5, 0⟩ h1 h2 h5
  refine ⟨h1, h2, by rw [h3]; norm_num, ?_⟩
  rw [hmain.2.2.2.2.1]
  intro hbad
  have hx := congrArg Vec3.x hbad
  have hdval : Vec3.dot Vec3.ex ⟨3/5, 4/5, 0⟩ = 3/5 := by
    unfold Vec3.dot Vec3.ex
    norm_num
  have haxis : Vec3.cross (Vec3.normalize (Vec3.cross Vec3.ex ⟨3/5, 4/5, 0⟩))
      Vec3.ex = Vec3.smul (1 / (4/5)) (Vec3.cross (Vec3.cross Vec3.ex ⟨3/5, 4/5, 0⟩) Vec3.ex) := by
    unfold Vec3.normalize
    rw [h3, Vec3.cross_smul_left]
  rw [hdval] at hx
  rw [haxis] at hx
  unfold Vec3.add Vec3.smul Vec3.cross Vec3.ex at hx
  simp only at hx
  rw [Real.cos_arccos (by norm_num) (by norm_num)] at hx
  norm_num at hx

/-- C7 (amended): for a unit source vector and its exact opposite, the
anti-parallel branch returns the finite half-turn `-I + 2 a aᵀ` about
the unit axis `a = normalize(cross(u, perp))`, perpendicular to `u`,
where `perp` is world X when `|u.x| < 0.9 * (1 + 1e-8)` — the code tests
`|x| < 0.9` on the input renormalised by `1/(norm + 1e-8)` — and world Y
otherwise; the result is orthonormal with determinant 1 and maps `u`
exactly to `-u`. -/
theorem C7_antiparallel_amended (u : Vec3) (hu : Vec3.normSq u = 1) :
    rotation_matrix_from_vectors u (Vec3.neg u)
        = rot180 (Vec3.normalize (Vec3.cross u
            (if |u.x| < 0.9 * (1 + 1e-8) then Vec3.ex else Vec3.ey))) ∧
    Vec3.normSq (Vec3.normalize (Vec3.cross u
        (if |u.x| < 0.9 * (1 + 1e-8) then Vec3.ex else Vec3.ey))) = 1 ∧
    Vec3.dot (Vec3.normalize (Vec3.cross u
        (if |u.x| < 0.9 * (1 + 1e-8) then Vec3.ex else Vec3.ey))) u = 0 ∧
    Mat3.Orthonormal (rotation_matrix_from_vectors u (Vec3.neg u)) ∧
    Mat3.det (rotation_matrix_from_vectors u (Vec3.neg u)) = 1 ∧
    Mat3.mulVec (rotation_matrix_from_vectors u (Vec3.neg u)) u = Vec3.neg u := by
  have heq := rmfv_neg hu
  have hperp : Vec3.dot (Vec3.normalize (Vec3.cross u
      (if |u.x| < 0.9 * (1 + 1e-8) then Vec3.ex else Vec3.ey))) u = 0 :=
    Vec3.dot_normalize_cross_left u _
  have hupos : 0 < Vec3.normSq (Vec3.cross u
      (if |u.x| < 0.9 * (1 + 1e-8) then Vec3.ex else Vec3.ey)) := by
    by_cases hx : |u.x| < 0.9 * (1 + 1e-8)
    · rw [if_pos hx]
      have hcx : Vec3.normSq (Vec3.cross u Vec3.ex) = u.y * u.y + u.z * u.z := by
        unfold Vec3.normSq Vec3.cross Vec3.ex
        ring
      rw [hcx]
      have hx2 : u.x * u.x < 1 := by
        have habs : |u.x| < 1 := lt_of_lt_of_le hx (by norm_num)
        nlinarith [abs_nonneg u.x, sq_abs u.x]
      have := hu
      unfold Vec3.normSq at this
      nlinarith
    · rw [if_neg hx]
      have hcy : Vec3.normSq (Vec3.cross u Vec3.ey) = u.x * u.x + u.z * u.z := by
        unfold Vec3.normSq Vec3.cross Vec3.ey
        ring
      rw [hcy]
      push_neg at hx
      have hx2 : (0.81 : ℝ) ≤ u.x * u.x := by
        nlinarith [sq_abs u.x, abs_nonneg u.x]
      nlinarith [sq_nonneg u.z]
  have hA : Vec3.normSq (Vec3.normalize (Vec3.cross u
      (if |u.x| < 0.9 * (1 + 1e-8) then Vec3.ex else Vec3.ey))) = 1 :=
    Vec3.normSq_normalized (Vec3.norm_pos_of_normSq_pos hupos)
  refine ⟨heq, hA, hperp, ?_, ?_, ?_⟩
  · rw [heq]
    exact rot180_orthonormal hA
  · rw [heq]
    exact rot180_det hA
  · rw [heq]
    exact rot180_mulVec_perp hA hperp

/-- Witness for C7 (amended) at the world-Y unit vector. -/
theorem C7_antiparallel_amended_witness :
    Vec3.normSq Vec3.ey = 1 ∧
    Mat3.mulVec (rotation_matrix_from_vectors Vec3.ey (Vec3.neg Vec3.ey)) Vec3.ey
      = Vec3.neg Vec3.ey := by
  have h1 : Vec3.normSq Vec3.ey = 1 := by
    unfold Vec3.normSq Vec3.ey
    norm_num
  exact ⟨h1, (C7_antiparallel_amended Vec3.ey h1).2.2.2.2.2⟩

/-- Counterexample for C7 as stated: the unit vector
`u = (0.9, 0.3, sqrt 0.1)` has `|u.x| = 0.9`, so the claim's rule
(`|u[0]| < 0.9`, otherwise world Y) prescribes the axis built from
`cross(u, world_Y)`; but the code renormalises by `1/(norm + 1e-8)`
first, sees `|x| = 0.9/(1+1e-8) < 0.9`, and uses `cross(u, world_X)` —
a genuinely different half-turn (the `(0,0)` entries differ). -/
theorem C7_counterexample :
    Vec3.normSq ⟨0.9, 0.3, Real.sqrt 0.1⟩ = 1 ∧
    (0.9 : ℝ) ≤ |(⟨0.9, 0.3, Real.sqrt 0.1⟩ : Vec3).x| ∧
    rotation_matrix_from_vectors ⟨0.9, 0.3, Real.sqrt 0.1⟩
        (Vec3.neg ⟨0.9, 0.3, Real.sqrt 0.1⟩)
      ≠ rot180 (Vec3.normalize
          (Vec3.cross ⟨0.9, 0.3, Real.sqrt 0.1⟩ Vec3.ey)) := by
  have hsq : Real.sqrt 0.1 * Real.sqrt 0.1 = 0.1 :=
    Real.mul_self_sqrt (by norm_num)
  have hu : Vec3.normSq ⟨0.9, 0.3, Real.sqrt 0.1⟩ = 1 := by
    unfold Vec3.normSq
    simp only
    rw [hsq]
    norm_num
  have hx : |(⟨0.9, 0.3, Real.sqrt 0.1⟩ : Vec3).x| < 0.9 * (1 + 1e-8) := by
    simp only
    rw [abs_of_pos (by norm_num)]
    norm_num
  have heq := rmfv_neg hu
  rw [if_pos hx] at heq
  refine ⟨hu, by simp only; rw [abs_of_pos (by norm_num)], ?_⟩
  rw [heq]
  intro hbad
  have h00 := congrArg Mat3.m00 hbad
  -- left side: axis x-component is 0, so the entry is -1
  have hcxe : Vec3.cross ⟨0.9, 0.3, Real.sqrt 0.1⟩ Vec3.ex
      = ⟨0, Real.sqrt 0.1, -0.3⟩ := by
    unfold Vec3.cross Vec3.ex
    exact Vec3.ext3 (by norm_num) (by norm_num) (by norm_num)
  have hcye : Vec3.cross ⟨0.9, 0.3, Real.sqrt 0.1⟩ Vec3.ey
      = ⟨-Real.sqrt 0.1, 0, 0.9⟩ := by
    unfold Vec3.cross Vec3.ey
    exact Vec3.ext3 (by norm_num) (by norm_num) (by norm_num)
  rw [hcxe, hcye] at h00
  have hnye : Vec3.norm (⟨-Real.sqrt 0.1, 0, 0.9⟩ : Vec3) * Vec3.norm (⟨-Real.sqrt 0.1, 0, 0.9⟩ : Vec3) = 0.91 := by
    rw [Vec3.norm_sq_eq]
    unfold Vec3.normSq
    simp only
    rw [show -Real.sqrt 0.1 * -Real.sqrt 0.1 = Real.sqrt 0.1 * Real.sqrt 0.1 by ring, hsq]
    norm_num
  unfold rot180 Vec3.normalize Mat3.add Mat3.smul Mat3.outer Mat3.one Vec3.smul at h00
  simp only at h00
  -- reduce to a scalar impossibility
  have hN2 : Vec3.norm (⟨-Real.sqrt 0.1, 0, 0.9⟩ : Vec3) ≠ 0 := by
    intro hzero
    rw [hzero] at hnye
    norm_num at hnye
  have hNpos : 0 < Vec3.norm (⟨-Real.sqrt 0.1, 0, 0.9⟩ : Vec3) :=
    lt_of_le_of_ne (Vec3.norm_nonneg _) (Ne.symm hN2)
  have hqpos : 0 < 1 / Vec3.norm (⟨-Real.sqrt 0.1, 0, 0.9⟩ : Vec3) := by positivity
  have hspos : 0 < Real.sqrt 0.1 := Real.sqrt_pos.mpr (by norm_num)
  nlinarith [h00, mul_pos (mul_pos hqpos hspos) (mul_pos hqpos hspos)]

end MHRBVH

namespace MHRBVH

/-! ## Root orientation estimator (claim C2) -/

theorem Vec3.dot_comm (a b : Vec3) : Vec3.dot a b = Vec3.dot b a := by
  unfold Vec3.dot
  ring

theorem Vec3.dot_self_eq_normSq (a : Vec3) : Vec3.dot a a = Vec3.normSq a := rfl

theorem Mat3.transpose_mul_ofCols (c0 c1 c2 : Vec3) :
    Mat3.mul (Mat3.transpose (Mat3.ofCols c0 c1 c2)) (Mat3.ofCols c0 c1 c2)
      = ⟨Vec3.dot c0 c0, Vec3.dot c0 c1, Vec3.dot c0 c2,
         Vec3.dot c1 c0, Vec3.dot c1 c1, Vec3.dot c1 c2,
         Vec3.dot c2 c0, Vec3.dot c2 c1, Vec3.dot c2 c2⟩ := by
  unfold Mat3.mul Mat3.transpose Mat3.ofCols Vec3.dot
  exact Mat3.ext9 (by ring) (by ring) (by ring) (by ring) (by ring)
    (by ring) (by ring) (by ring) (by ring)

theorem root_up_normSq (kp : List Vec3) : Vec3.normSq (root_up kp) = 1 := by
  simp only [root_up]
  by_cases h : Vec3.norm (Vec3.sub (shoulder_center kp) (hip_center kp)) < 1e-6
  · rw [if_pos h]
    unfold Vec3.normSq Vec3.ey
    norm_num
  · rw [if_neg h]
    exact Vec3.normSq_normalized (Vec3.norm_pos_of_le (by norm_num) h)

/-- C2 (amended): the basis `_compute_root_rotation` returns is
orthonormal whenever the forward fallback is not taken, i.e. whenever
`cross(right, up)` has norm at least 1e-6; the `up` and `right`
fallbacks are harmless, but when `right` and `up` are (near-)parallel the
fallback forward `(0,0,1)` need not be orthogonal to `up`, and the basis
can degenerate. -/
theorem C2_root_basis_amended (kp : List Vec3)
    (h : ¬ Vec3.norm (Vec3.cross (root_right kp) (root_up kp)) < 1e-6) :
    compute_root_rotation kp
        = Mat3.ofCols (Vec3.cross (root_up kp) (root_forward kp))
            (root_up kp) (root_forward kp) ∧
    Mat3.Orthonormal (compute_root_rotation kp) := by
  have hup : Vec3.normSq (root_up kp) = 1 := root_up_normSq kp
  have hfw : root_forward kp
      = Vec3.smul (1 / Vec3.norm (Vec3.cross (root_right kp) (root_up kp)))
          (Vec3.cross (root_right kp) (root_up kp)) := by
    simp only [root_forward]
    rw [if_neg h]
  have hNpos : 0 < Vec3.norm (Vec3.cross (root_right kp) (root_up kp)) :=
    Vec3.norm_pos_of_le (by norm_num) h
  have hfwsq : Vec3.normSq (root_forward kp) = 1 := by
    rw [hfw]
    exact Vec3.normSq_normalized hNpos
  have hupfw : Vec3.dot (root_up kp) (root_forward kp) = 0 := by
    rw [hfw, Vec3.dot_smul_right]
    rw [Vec3.dot_comm]
    rw [Vec3.dot_cross_right]
    ring
  refine ⟨rfl, ?_⟩
  unfold Mat3.Orthonormal compute_root_rotation
  rw [Mat3.transpose_mul_ofCols]
  have hc00 : Vec3.dot (Vec3.cross (root_up kp) (root_forward kp))
      (Vec3.cross (root_up kp) (root_forward kp)) = 1 := by
    rw [Vec3.dot_self_eq_normSq, Vec3.normSq_cross, hup, hfwsq, hupfw]
    ring
  have hc01 : Vec3.dot (Vec3.cross (root_up kp) (root_forward kp))
      (root_up kp) = 0 := Vec3.dot_cross_left _ _
  have hc02 : Vec3.dot (Vec3.cross (root_up kp) (root_forward kp))
      (root_forward kp) = 0 := Vec3.dot_cross_right _ _
  have hc10 : Vec3.dot (root_up kp)
      (Vec3.cross (root_up kp) (root_forward kp)) = 0 := by
    rw [Vec3.dot_comm]; exact hc01
  have hc20 : Vec3.dot (root_forward kp)
      (Vec3.cross (root_up kp) (root_forward kp)) = 0 := by
    rw [Vec3.dot_comm]; exact hc02
  have hc21 : Vec3.dot (root_forward kp) (root_up kp) = 0 := by
    rw [Vec3.dot_comm]; exact hupfw
  have hc11 : Vec3.dot (root_up kp) (root_up kp) = 1 := by
    rw [Vec3.dot_self_eq_normSq]; exact hup
  have hc22 : Vec3.dot (root_forward kp) (root_forward kp) = 1 := by
    rw [Vec3.dot_self_eq_normSq]; exact hfwsq
  unfold Mat3.one
  exact Mat3.ext9 hc00 hc01 hc02 hc10 hc11 hupfw hc20 hc21 hc22

theorem kpAt_map_range (f : Nat → Vec3) (n i : Nat) (h : i < n) :
    kpAt ((List.range n).map f) i = f i := by
  unfold kpAt
  rw [List.getD_eq_getElem?_getD, List.getElem?_map, List.getElem?_range h]
  rfl

/-- Witness for C2 (amended) at an upright synthetic frame (hips on the
X axis, shoulders above them): the forward vector is genuinely computed
and the returned basis is orthonormal. -/
theorem C2_root_basis_amended_witness :
    ¬ Vec3.norm (Vec3.cross
        (root_right ((List.range 70).map (fun i =>
          if i = 9 then ⟨1, 0, 0⟩ else if i = 10 then ⟨-1, 0, 0⟩
          else if i = 5 then ⟨1, 1, 0⟩ else if i = 6 then ⟨-1, 1, 0⟩
          else Vec3.zero)))
        (root_up ((List.range 70).map (fun i =>
          if i = 9 then ⟨1, 0, 0⟩ else if i = 10 then ⟨-1, 0, 0⟩
          else if i = 5 then ⟨1, 1, 0⟩ else if i = 6 then ⟨-1, 1, 0⟩
          else Vec3.zero)))) < 1e-6 ∧
    Mat3.Orthonormal (compute_root_rotation ((List.range 70).map (fun i =>
      if i = 9 then ⟨1, 0, 0⟩ else if i = 10 then ⟨-1, 0, 0⟩
      else if i = 5 then ⟨1, 1, 0⟩ else if i = 6 then ⟨-1, 1, 0⟩
      else Vec3.zero))) := by
  have h9 : kpAt ((List.range 70).map (fun i =>
      if i = 9 then (⟨1, 0, 0⟩ : Vec3) else if i = 10 then ⟨-1, 0, 0⟩
      else if i = 5 then ⟨1, 1, 0⟩ else if i = 6 then ⟨-1, 1, 0⟩
      else Vec3.zero)) 9 = ⟨1, 0, 0⟩ := by
    rw [kpAt_map_range _ _ _ (by norm_num)]
    norm_num
  have h10 : kpAt ((List.range 70).map (fun i =>
      if i = 9 then (⟨1, 0, 0⟩ : Vec3) else if i = 10 then ⟨-1, 0, 0⟩
      else if i = 5 then ⟨1, 1, 0⟩ else if i = 6 then ⟨-1, 1, 0⟩
      else Vec3.zero)) 10 = ⟨-1, 0, 0⟩ := by
    rw [kpAt_map_range _ _ _ (by norm_num)]
    norm_num
  have h5 : kpAt ((List.range 70).map (fun i =>
      if i = 9 then (⟨1, 0, 0⟩ : Vec3) else if i = 10 then ⟨-1, 0, 0⟩
      else if i = 5 then ⟨1, 1, 0⟩ else if i = 6 then ⟨-1, 1, 0⟩
      else Vec3.zero)) 5 = ⟨1, 1, 0⟩ := by
    rw [kpAt_map_range _ _ _ (by norm_num)]
    norm_num
  have h6 : kpAt ((List.range 70).map (fun i =>
      if i = 9 then (⟨1, 0, 0⟩ : Vec3) else if i = 10 then ⟨-1, 0, 0⟩
      else if i = 5 then ⟨1, 1, 0⟩ else if i = 6 then ⟨-1, 1, 0⟩
      else Vec3.zero)) 6 = ⟨-1, 1, 0⟩ := by
    rw [kpAt_map_range _ _ _ (by norm_num)]
    norm_num
  have hupv : root_up ((List.range 70).map (fun i =>
      if i = 9 then (⟨1, 0, 0⟩ : Vec3) else if i = 10 then ⟨-1, 0, 0⟩
      else if i = 5 then ⟨1, 1, 0⟩ else if i = 6 then ⟨-1, 1, 0⟩
      else Vec3.zero)) = ⟨0, 1, 0⟩ := by
    simp only [root_up, shoulder_center, hip_center]
    rw [h9, h10, h5, h6]
    have hsub : Vec3.sub (Vec3.smul (1/2) (Vec3.add ⟨1, 1, 0⟩ ⟨-1, 1, 0⟩))
        (Vec3.smul (1/2) (Vec3.add ⟨1, 0, 0⟩ ⟨-1, 0, 0⟩)) = ⟨0, 1, 0⟩ := by
      unfold Vec3.sub Vec3.smul Vec3.add
      exact Vec3.ext3 (by norm_num) (by norm_num) (by norm_num)
    rw [hsub]
    have hn1 : Vec3.norm (⟨0, 1, 0⟩ : Vec3) = 1 := by
      refine Vec3.norm_eq_of_sq (by norm_num) ?_
      unfold Vec3.normSq
      norm_num
    rw [hn1, if_neg (by norm_num)]
    unfold Vec3.smul
    exact Vec3.ext3 (by norm_num) (by norm_num) (by norm_num)
  have hrightv : root_right ((List.range 70).map (fun i =>
      if i = 9 then (⟨1, 0, 0⟩ : Vec3) else if i = 10 then ⟨-1, 0, 0⟩
      else if i = 5 then ⟨1, 1, 0⟩ else if i = 6 then ⟨-1, 1, 0⟩
      else Vec3.zero)) = ⟨-1, 0, 0⟩ := by
    simp only [root_right]
    rw [h9, h10]
    have hsub : Vec3.sub (⟨-1, 0, 0⟩ : Vec3) ⟨1, 0, 0⟩ = ⟨-2, 0, 0⟩ := by
      unfold Vec3.sub
      exact Vec3.ext3 (by norm_num) (by norm_num) (by norm_num)
    rw [hsub]
    have hn2 : Vec3.norm (⟨-2, 0, 0⟩ : Vec3) = 2 := by
      refine Vec3.norm_eq_of_sq (by norm_num) ?_
      unfold Vec3.normSq
      norm_num
    rw [hn2, if_neg (by norm_num)]
    unfold Vec3.smul
    exact Vec3.ext3 (by norm_num) (by norm_num) (by norm_num)
  have hcrossv : Vec3.cross (⟨-1, 0, 0⟩ : Vec3) ⟨0, 1, 0⟩ = ⟨0, 0, -1⟩ := by
    unfold Vec3.cross
    exact Vec3.ext3 (by norm_num) (by norm_num) (by norm_num)
  have hnormc : Vec3.norm (⟨0, 0, -1⟩ : Vec3) = 1 := by
    refine Vec3.norm_eq_of_sq (by norm_num) ?_
    unfold Vec3.normSq
    norm_num
  have hcond : ¬ Vec3.norm (Vec3.cross
      (root_right ((List.range 70).map (fun i =>
        if i = 9 then (⟨1, 0, 0⟩ : Vec3) else if i = 10 then ⟨-1, 0, 0⟩
        else if i = 5 then ⟨1, 1, 0⟩ else if i = 6 then ⟨-1, 1, 0⟩
        else Vec3.zero)))
      (root_up ((List.range 70).map (fun i =>
        if i = 9 then (⟨1, 0, 0⟩ : Vec3) else if i = 10 then ⟨-1, 0, 0⟩
        else if i = 5 then ⟨1, 1, 0⟩ else if i = 6 then ⟨-1, 1, 0⟩
        else Vec3.zero)))) < 1e-6 := by
    rw [hrightv, hupv, hcrossv, hnormc]
    norm_num
  exact ⟨hcond, (C2_root_basis_amended _ hcond).2⟩

/-- Counterexample for C2 as stated: a frame with both hips and both
shoulders on the world Z axis (a person "lying along Z") drives `up` and
`right` to the same direction `(0,0,1)`; the forward fallback `(0,0,1)`
is then parallel to `up`, the recomputed `right = cross(up, forward)` is
the zero vector, and the returned matrix is not orthonormal. -/
theorem C2_counterexample :
    ¬ Mat3.Orthonormal (compute_root_rotation ((List.range 70).map (fun i =>
      if i = 10 then ⟨0, 0, 1⟩ else if i = 5 then ⟨0, 0, 3⟩
      else if i = 6 then ⟨0, 0, 3⟩ else Vec3.zero))) := by
  have h9 : kpAt ((List.range 70).map (fun i =>
      if i = 10 then (⟨0, 0, 1⟩ : Vec3) else if i = 5 then ⟨0, 0, 3⟩
      else if i = 6 then ⟨0, 0, 3⟩ else Vec3.zero)) 9 = Vec3.zero := by
    rw [kpAt_map_range _ _ _ (by norm_num)]
    norm_num
  have h10 : kpAt ((List.range 70).map (fun i =>
      if i = 10 then (⟨0, 0, 1⟩ : Vec3) else if i = 5 then ⟨0, 0, 3⟩
      else if i = 6 then ⟨0, 0, 3⟩ else Vec3.zero)) 10 = ⟨0, 0, 1⟩ := by
    rw [kpAt_map_range _ _ _ (by norm_num)]
    norm_num
  have h5 : kpAt ((List.range 70).map (fun i =>
      if i = 10 then (⟨0, 0, 1⟩ : Vec3) else if i = 5 then ⟨0, 0, 3⟩
      else if i = 6 then ⟨0, 0, 3⟩ else Vec3.zero)) 5 = ⟨0, 0, 3⟩ := by
    rw [kpAt_map_range _ _ _ (by norm_num)]
    norm_num
  have h6 : kpAt ((List.range 70).map (fun i =>
      if i = 10 then (⟨0, 0, 1⟩ : Vec3) else if i = 5 then ⟨0, 0, 3⟩
      else if i = 6 then ⟨0, 0, 3⟩ else Vec3.zero)) 6 = ⟨0, 0, 3⟩ := by
    rw [kpAt_map_range _ _ _ (by norm_num)]
    norm_num
  have hupv : root_up ((List.range 70).map (fun i =>
      if i = 10 then (⟨0, 0, 1⟩ : Vec3) else if i = 5 then ⟨0, 0, 3⟩
      else if i = 6 then ⟨0, 0, 3⟩ else Vec3.zero)) = ⟨0, 0, 1⟩ := by
    simp only [root_up, shoulder_center, hip_center]
    rw [h9, h10, h5, h6]
    have hsub : Vec3.sub (Vec3.smul (1/2) (Vec3.add ⟨0, 0, 3⟩ ⟨0, 0, 3⟩))
        (Vec3.smul (1/2) (Vec3.add Vec3.zero ⟨0, 0, 1⟩)) = ⟨0, 0, 2.5⟩ := by
      unfold Vec3.sub Vec3.smul Vec3.add Vec3.zero
      exact Vec3.ext3 (by norm_num) (by norm_num) (by norm_num)
    rw [hsub]
    have hn : Vec3.norm (⟨0, 0, 2.5⟩ : Vec3) = 2.5 := by
      refine Vec3.norm_eq_of_sq (by norm_num) ?_
      unfold Vec3.normSq
      norm_num
    rw [hn, if_neg (by norm_num)]
    unfold Vec3.smul
    exact Vec3.ext3 (by norm_num) (by norm_num) (by norm_num)
  have hrightv : root_right ((List.range 70).map (fun i =>
      if i = 10 then (⟨0, 0, 1⟩ : Vec3) else if i = 5 then ⟨0, 0, 3⟩
      else if i = 6 then ⟨0, 0, 3⟩ else Vec3.zero)) = ⟨0, 0, 1⟩ := by
    simp only [root_right]
    rw [h9, h10]
    have hsub : Vec3.sub (⟨0, 0, 1⟩ : Vec3) Vec3.zero = ⟨0, 0, 1⟩ := by
      unfold Vec3.sub Vec3.zero
      exact Vec3.ext3 (by norm_num) (by norm_num) (by norm_num)
    rw [hsub]
    have hn : Vec3.norm (⟨0, 0, 1⟩ : Vec3) = 1 := by
      refine Vec3.norm_eq_of_sq (by norm_num) ?_
      unfold Vec3.normSq
      norm_num
    rw [hn, if_neg (by norm_num)]
    unfold Vec3.smul
    exact Vec3.ext3 (by norm_num) (by norm_num) (by norm_num)
  have hfwv : root_forward ((List.range 70).map (fun i =>
      if i = 10 then (⟨0, 0, 1⟩ : Vec3) else if i = 5 then ⟨0, 0, 3⟩
      else if i = 6 then ⟨0, 0, 3⟩ else Vec3.zero)) = Vec3.ez := by
    simp only [root_forward]
    rw [hrightv, hupv]
    have hcr : Vec3.cross (⟨0, 0, 1⟩ : Vec3) ⟨0, 0, 1⟩ = Vec3.zero := by
      unfold Vec3.cross Vec3.zero
      exact Vec3.ext3 (by norm_num) (by norm_num) (by norm_num)
    rw [hcr, Vec3.norm_zero_vec, if_pos (by norm_num)]
  intro horth
  unfold Mat3.Orthonormal compute_root_rotation at horth
  rw [Mat3.transpose_mul_ofCols, hupv, hfwv] at horth
  have h00 := congrArg Mat3.m00 horth
  have hcr0 : Vec3.cross (⟨0, 0, 1⟩ : Vec3) Vec3.ez = Vec3.zero := by
    unfold Vec3.cross Vec3.ez Vec3.zero
    exact Vec3.ext3 (by norm_num) (by norm_num) (by norm_num)
  rw [hcr0] at h00
  unfold Vec3.dot Vec3.zero Mat3.one at h00
  norm_num at h00

end MHRBVH

namespace MHRBVH

/-! ## Keypoint extraction (claim C5) -/

/-- C5: on a 70-landmark frame, the extracted positions satisfy: the
pelvis (joint 0) is the hip midpoint; Spine/Spine1/Spine2 (joints 1-3)
interpolate from the pelvis towards the neck landmark (keypoint 69) at
fractions 0.25/0.5/0.75; every other joint of the selected skeleton whose
mapped keypoint index is within the landmark range copies that landmark
verbatim; a mapped index out of range would leave the joint at the zero
vector (vacuous at 70 landmarks, where every mapped index is at most 69). -/
theorem C5_extract_positions (kp : List Vec3) (ih : Bool)
    (h70 : kp.length = 70) :
    extract_bvh_positions_from_mhr kp ih 0
        = Vec3.smul (1 / 2) (Vec3.add (kpAt kp 9) (kpAt kp 10)) ∧
    extract_bvh_positions_from_mhr kp ih 1
        = Vec3.add (extract_bvh_positions_from_mhr kp ih 0)
            (Vec3.smul 0.25 (Vec3.sub (kpAt kp 69)
              (extract_bvh_positions_from_mhr kp ih 0))) ∧
    extract_bvh_positions_from_mhr kp ih 2
        = Vec3.add (extract_bvh_positions_from_mhr kp ih 0)
            (Vec3.smul 0.5 (Vec3.sub (kpAt kp 69)
              (extract_bvh_positions_from_mhr kp ih 0))) ∧
    extract_bvh_positions_from_mhr kp ih 3
        = Vec3.add (extract_bvh_positions_from_mhr kp ih 0)
            (Vec3.smul 0.75 (Vec3.sub (kpAt kp 69)
              (extract_bvh_positions_from_mhr kp ih 0))) ∧
    (∀ j idx, 4 ≤ j → j < numJoints ih →
      MHR_TO_BVH_KEYPOINT_MAP j = some idx → idx < kp.length →
      extract_bvh_positions_from_mhr kp ih j = kpAt kp idx) ∧
    (∀ j idx, 4 ≤ j → j < numJoints ih →
      MHR_TO_BVH_KEYPOINT_MAP j = some idx → ¬ idx < kp.length →
      extract_bvh_positions_from_mhr kp ih j = Vec3.zero) := by
  have hpelvis : extract_bvh_positions_from_mhr kp ih 0
      = Vec3.smul (1 / 2) (Vec3.add (kpAt kp 9) (kpAt kp 10)) := by
    simp only [extract_bvh_positions_from_mhr]
    norm_num
  refine ⟨hpelvis, ?_, ?_, ?_, ?_, ?_⟩
  · rw [hpelvis]
    simp only [extract_bvh_positions_from_mhr]
    norm_num
  · rw [hpelvis]
    simp only [extract_bvh_positions_from_mhr]
    norm_num
  · rw [hpelvis]
    simp only [extract_bvh_positions_from_mhr]
    norm_num
  · intro j idx h4 hlt hmap hidx
    simp only [extract_bvh_positions_from_mhr]
    rw [if_neg (by omega), if_neg (by omega), if_neg (by omega),
      if_neg (by omega), if_pos hlt, hmap]
    show (if idx < kp.length then kpAt kp idx else Vec3.zero) = kpAt kp idx
    rw [if_pos hidx]
  · intro j idx h4 hlt hmap hidx
    simp only [extract_bvh_positions_from_mhr]
    rw [if_neg (by omega), if_neg (by omega), if_neg (by omega),
      if_neg (by omega), if_pos hlt, hmap]
    show (if idx < kp.length then kpAt kp idx else Vec3.zero) = Vec3.zero
    rw [if_neg hidx]

/-- Witness for C5 at a concrete uniform 70-landmark frame. -/
theorem C5_extract_positions_witness :
    (List.replicate 70 (⟨1, 2, 3⟩ : Vec3)).length = 70 ∧
    extract_bvh_positions_from_mhr (List.replicate 70 ⟨1, 2, 3⟩) true 0
      = Vec3.smul (1 / 2)
          (Vec3.add (kpAt (List.replicate 70 ⟨1, 2, 3⟩) 9)
            (kpAt (List.replicate 70 ⟨1, 2, 3⟩) 10)) := by
  refine ⟨by simp, ?_⟩
  exact (C5_extract_positions (List.replicate 70 ⟨1, 2, 3⟩) true (by simp)).1

/-! ## Degenerate joints inherit the parent rotation (claim C6) -/

theorem atan2_zero_pos {x : ℝ} (hx : 0 < x) : atan2 0 x = 0 := by
  unfold atan2
  rw [if_pos hx, zero_div, Real.arctan_zero]

theorem eulerZXY_one : eulerZXY Mat3.one = (0, 0, 0) := by
  unfold eulerZXY Mat3.one deg clip
  simp only
  have hclip : min (max (0 : ℝ) (-1)) 1 = 0 := by norm_num
  rw [hclip, Real.arcsin_zero, show (-(0:ℝ)) = 0 by norm_num,
    atan2_zero_pos one_pos]
  norm_num

/-- C6: a non-root joint whose parent was already processed and which
either has no children or whose first-child bone vector has norm at most
1e-6 copies its parent's accumulated rotation; and when that parent
rotation is orthonormal the reported local rotation is the identity, so
the Euler row is `(0, 0, 0)` (the embedding is a total function, so no
exception or divergence can occur). -/
theorem C6_degenerate_inherits (parents : List Int) (rest pos : Nat → Vec3)
    (rootR : Mat3) (j : Nat) (hnr : parAt parents j ≠ -1)
    (hpar : 0 ≤ parAt parents j ∧ (parAt parents j).toNat < j)
    (hdeg : (childrenOf parents j).head? = none ∨
      ∃ c, (childrenOf parents j).head? = some c ∧
        ¬ 1e-6 < Vec3.norm (Vec3.sub (pos c) (pos j))) :
    accRot parents rest pos rootR j
        = accRot parents rest pos rootR (parAt parents j).toNat ∧
    (Mat3.Orthonormal (accRot parents rest pos rootR (parAt parents j).toNat) →
      joint_euler parents rest pos rootR j = (0, 0, 0)) := by
  have hacc : accRot parents rest pos rootR j
      = accRot parents rest pos rootR (parAt parents j).toNat := by
    rw [accRot]
    rw [if_neg hnr, dif_pos hpar]
    rcases hdeg with hnone | ⟨c, hc, hlen⟩
    · rw [hnone]
    · rw [hc]
      simp only
      rw [if_neg hlen]
  refine ⟨hacc, ?_⟩
  intro horth
  unfold joint_euler joint_local_rot
  rw [if_neg hnr, if_pos ⟨hpar.1, le_of_lt hpar.2⟩, hacc]
  rw [horth]
  exact eulerZXY_one

/-- Witness for C6 at joint 1 (Spine) of the body-only topology with all
positions at the origin (a zero-length bone to its first child) and the
identity as root rotation: the joint inherits the parent (root) rotation
and reports the zero Euler triple. -/
theorem C6_degenerate_inherits_witness :
    (parAt MHR_BVH_BODY_PARENTS 1 ≠ -1 ∧
      0 ≤ parAt MHR_BVH_BODY_PARENTS 1 ∧
      (parAt MHR_BVH_BODY_PARENTS 1).toNat < 1 ∧
      (childrenOf MHR_BVH_BODY_PARENTS 1).head? = some 2 ∧
      ¬ 1e-6 < Vec3.norm (Vec3.sub Vec3.zero Vec3.zero)) ∧
    joint_euler MHR_BVH_BODY_PARENTS (fun _ => Vec3.zero) (fun _ => Vec3.zero)
      Mat3.one 1 = (0, 0, 0) := by
  have h1 : parAt MHR_BVH_BODY_PARENTS 1 ≠ -1 := by decide
  have h2 : 0 ≤ parAt MHR_BVH_BODY_PARENTS 1 ∧
      (parAt MHR_BVH_BODY_PARENTS 1).toNat < 1 := by decide
  have h3 : (childrenOf MHR_BVH_BODY_PARENTS 1).head? = some 2 := by decide
  have hsubz : Vec3.sub Vec3.zero Vec3.zero = Vec3.zero := by
    unfold Vec3.sub Vec3.zero
    exact Vec3.ext3 (by ring) (by ring) (by ring)
  have h4 : ¬ 1e-6 < Vec3.norm (Vec3.sub Vec3.zero Vec3.zero) := by
    rw [hsubz, Vec3.norm_zero_vec]
    norm_num
  have hmain := C6_degenerate_inherits MHR_BVH_BODY_PARENTS
    (fun _ => Vec3.zero) (fun _ => Vec3.zero) Mat3.one 1 h1 h2
    (Or.inr ⟨2, h3, h4⟩)
  refine ⟨⟨h1, h2.1, h2.2, h3, h4⟩, ?_⟩
  refine hmain.2 ?_
  have hroot : accRot MHR_BVH_BODY_PARENTS (fun _ => Vec3.zero)
      (fun _ => Vec3.zero) Mat3.one (parAt MHR_BVH_BODY_PARENTS 1).toNat
      = Mat3.one := by
    have ht : (parAt MHR_BVH_BODY_PARENTS 1).toNat = 0 := by decide
    rw [ht, accRot, if_pos (by decide)]
  rw [hroot]
  exact Mat3.one_orthonormal

end MHRBVH

namespace MHRBVH

/-! ## Conversion entry point (claims C8, C9, C10) -/

/-- C10: the conversion entry point never propagates an exception — for
every input it returns either the success triple (a bvh_data record, the
output path, an info string) or the error triple
`({}, "", "MHRtoBVH failed: " + reason)` produced by the blanket
`except Exception` handler. -/
theorem C10_convert_total (mp : Option (List (List Vec3))) (out : String)
    (fps : Int) (scale : ℝ) (ih : Bool) :
    (∃ d p i, convert_to_bvh mp out fps scale ih = (some d, p, i)) ∨
    (∃ r, convert_to_bvh mp out fps scale ih = (none, "", "MHRtoBVH failed: " ++ r)) := by
  rcases mp with _ | frames
  · exact Or.inr ⟨"Missing keypoints_3d in MHR params", rfl⟩
  · simp only [convert_to_bvh]
    by_cases h1 : fps = 0
    · rw [if_pos h1]
      exact Or.inr ⟨"float division by zero", rfl⟩
    · rw [if_neg h1]
      by_cases h2 : frames.any (fun f => f.length < 70)
      · rw [if_pos h2]
        exact Or.inr ⟨"index out of bounds for axis of size below 70", rfl⟩
      · rw [if_neg h2]
        by_cases h3 : frames.isEmpty
        · rw [if_pos h3]
          exact Or.inr ⟨"zero-size array to reduction operation fmin", rfl⟩
        · rw [if_neg h3]
          exact Or.inl ⟨_, _, _, rfl⟩

/-- C8 (amended): `convert_to_bvh` performs no input validation of its
own — it succeeds exactly when the keypoints entry is present, every
frame has at least 70 landmarks, the sequence is nonempty and `fps` is
nonzero; in particular negative `fps` and non-positive `scale` are
accepted and conversion completes, and the failing cases surface only as
the blanket `MHRtoBVH failed: ...` error triple, not as an upfront
rejection naming the parameter. -/
theorem C8_no_input_validation (frames : List (List Vec3)) (out : String)
    (fps : Int) (scale : ℝ) (ih : Bool) :
    (convert_to_bvh (some frames) out fps scale ih).1.isSome
      ↔ fps ≠ 0 ∧ (∀ f ∈ frames, 70 ≤ f.length) ∧ frames ≠ [] := by
  simp only [convert_to_bvh]
  by_cases h1 : fps = 0
  · rw [if_pos h1]
    simp [h1]
  · rw [if_neg h1]
    by_cases h2 : frames.any (fun f => f.length < 70)
    · rw [if_pos h2]
      simp only [Option.isSome_none, Bool.false_eq_true, false_iff]
      intro hcontra
      rw [List.any_eq_true] at h2
      obtain ⟨f, hf, hlen⟩ := h2
      have := hcontra.2.1 f hf
      simp at hlen
      omega
    · rw [if_neg h2]
      by_cases h3 : frames.isEmpty
      · rw [if_pos h3]
        simp only [Option.isSome_none, Bool.false_eq_true, false_iff]
        intro hcontra
        exact hcontra.2.2 (List.isEmpty_iff.mp h3)
      · rw [if_neg h3]
        simp only [Option.isSome_some, true_iff]
        refine ⟨h1, ?_, fun hnil => h3 (by simp [hnil])⟩
        intro f hf
        rw [List.any_eq_true] at h2
        push_neg at h2
        have := h2 f hf
        simp at this
        omega

/-- Counterexample for C8 as stated: a call with `fps = -1` and
`scale = -1` on a well-formed one-frame input is not rejected at all —
the conversion runs to completion and returns the success triple. -/
theorem C8_counterexample :
    (-1 : Int) < 0 ∧ (-1 : ℝ) < 0 ∧
    (convert_to_bvh (some [List.replicate 70 Vec3.zero]) "out.bvh"
      (-1) (-1) true).1.isSome = true := by
  refine ⟨by norm_num, by norm_num, ?_⟩
  simp only [convert_to_bvh]
  rw [if_neg (by decide)]
  have h2 : ¬ ([List.replicate 70 Vec3.zero].any (fun f => f.length < 70)) := by
    simp
  rw [if_neg h2, if_neg (by simp)]
  rfl

/-- C9: the solver carries no state across frames — each output row is a
function of that frame's keypoints and the immutable tables only, so two
sequences that agree on frame `f` produce identical Euler rows and root
translation at `f`. -/
theorem C9_frame_independence (frames1 frames2 : List (List Vec3)) (ih : Bool)
    (f : Nat) (h1 : f < frames1.length) (h2 : f < frames2.length)
    (heq : frames1.get ⟨f, h1⟩ = frames2.get ⟨f, h2⟩) :
    (compute_rotations frames1 ih).get
        ⟨f, by simpa [compute_rotations] using h1⟩
      = (compute_rotations frames2 ih).get
        ⟨f, by simpa [compute_rotations] using h2⟩ := by
  unfold compute_rotations
  simp only [List.get_eq_getElem] at heq ⊢
  rw [List.getElem_map, List.getElem_map, heq]

/-- Witness for C9 at a concrete one-frame input compared with itself. -/
theorem C9_frame_independence_witness :
    (0 < [List.replicate 70 Vec3.zero].length ∧
      [List.replicate 70 Vec3.zero].get ⟨0, by norm_num⟩
        = [List.replicate 70 Vec3.zero].get ⟨0, by norm_num⟩) ∧
    (compute_rotations [List.replicate 70 Vec3.zero] true).get ⟨0, by
        simp [compute_rotations]⟩
      = (compute_rotations [List.replicate 70 Vec3.zero] true).get ⟨0, by
        simp [compute_rotations]⟩ :=
  ⟨⟨by norm_num, rfl⟩,
    C9_frame_independence [List.replicate 70 Vec3.zero]
      [List.replicate 70 Vec3.zero] true 0 (by norm_num) (by norm_num) rfl⟩

end MHRBVH

namespace MHRBVH

/-! ## Solver step evaluation helpers (claim C3) -/

theorem accRot_root (parents : List Int) (rest pos : Nat → Vec3)
    (rootR : Mat3) (j : Nat) (h : parAt parents j = -1) :
    accRot parents rest pos rootR j = rootR := by
  rw [accRot, if_pos h]

theorem accRot_step (parents : List Int) (rest pos : Nat → Vec3)
    (rootR : Mat3) (j c : Nat) (hnr : parAt parents j ≠ -1)
    (hpar : 0 ≤ parAt parents j ∧ (parAt parents j).toNat < j)
    (hc : (childrenOf parents j).head? = some c)
    (hlen : 1e-6 < Vec3.norm (Vec3.sub (pos c) (pos j))) :
    accRot parents rest pos rootR j
      = Mat3.mul
          (rotation_matrix_from_vectors
            (Mat3.mulVec
              (accRot parents rest pos rootR (parAt parents j).toNat) (rest j))
            (Vec3.smul (1 / Vec3.norm (Vec3.sub (pos c) (pos j)))
              (Vec3.sub (pos c) (pos j))))
          (accRot parents rest pos rootR (parAt parents j).toNat) := by
  rw [accRot, if_neg hnr, dif_pos hpar, hc]
  simp only
  rw [if_pos hlen]

theorem rmfv_self {v : Vec3} (hv : Vec3.normSq v = 1) :
    rotation_matrix_from_vectors v v = Mat3.one := by
  have hnv : Vec3.norm v = 1 := Vec3.norm_eq_of_sq (by norm_num) (by rw [hv]; ring)
  simp only [rotation_matrix_from_vectors]
  rw [hnv, Vec3.cross_smul_left, Vec3.cross_smul_right, Vec3.smul_smul,
    Vec3.cross_self]
  have hz : Vec3.smul (1 / (1 + 1e-8) * (1 / (1 + 1e-8))) Vec3.zero
      = Vec3.zero := by
    unfold Vec3.smul Vec3.zero
    exact Vec3.ext3 (by ring) (by ring) (by ring)
  rw [hz, Vec3.norm_zero_vec, if_pos (by norm_num), Vec3.dot_smul_left,
    Vec3.dot_smul_right, Vec3.dot_self_eq_normSq, hv]
  rw [if_pos (by norm_num)]

theorem atan2_zero_neg {x : ℝ} (hx : x < 0) : atan2 0 x = Real.pi := by
  unfold atan2
  rw [if_neg (by linarith), if_pos hx, if_pos le_rfl, zero_div,
    Real.arctan_zero, zero_add]

theorem deg_pi : deg Real.pi = 180 := by
  unfold deg
  field_simp

theorem deg_zero : deg 0 = 0 := by
  unfold deg
  ring

end MHRBVH

namespace MHRBVH

theorem compute_rest_directions_child (parents : List Int) (j c : Nat)
    (hc : (childrenOf parents j).head? = some c) :
    compute_rest_directions parents j
      = (if 1e-6 < Vec3.norm ((MHR_BVH_OFFSETS c).getD ⟨0, 1, 0⟩)
         then Vec3.smul (1 / Vec3.norm ((MHR_BVH_OFFSETS c).getD ⟨0, 1, 0⟩))
           ((MHR_BVH_OFFSETS c).getD ⟨0, 1, 0⟩)
         else ⟨0, 1, 0⟩) := by
  simp only [compute_rest_directions]
  rw [hc]

theorem extract_mapped (kp : List Vec3) (ih : Bool) (j idx : Nat)
    (h0 : j ≠ 0) (h1 : j ≠ 1) (h2 : j ≠ 2) (h3 : j ≠ 3)
    (hj : j < numJoints ih) (hmap : MHR_TO_BVH_KEYPOINT_MAP j = some idx)
    (hlen : idx < kp.length) :
    extract_bvh_positions_from_mhr kp ih j = kpAt kp idx := by
  simp only [extract_bvh_positions_from_mhr]
  rw [if_neg h0, if_neg h1, if_neg h2, if_neg h3, if_pos hj, hmap]
  exact if_pos hlen

/-- C3 (code bug): on the synthetic body-only T-pose `tpose_kp`, whose
hip/shoulder/collar/neck landmarks sit exactly at the accumulated rest
offsets, joint 14 (`L_Collar`) receives the local Euler triple
`(180, 0, 0)` — a half-turn, not the identity — because the root
estimator's `right` axis points from the left hip to the right hip
(world `-X`) while the offset table lays the left side along `+X`, so
the root basis is `diag(-1, 1, -1)` and every `X`-aligned rest direction
is anti-parallel to its measured bone. -/
theorem C3_tpose_collar_not_identity :
    (solve_frame tpose_kp false).1 14 = (180, 0, 0) ∧
    (solve_frame tpose_kp false).1 14 ≠ ((0 : ℝ), (0 : ℝ), (0 : ℝ)) := by
  have h9 : kpAt tpose_kp 9 = ⟨0.1, 0, 0⟩ := by
    unfold tpose_kp
    rw [kpAt_map_range _ _ _ (by norm_num)]
    norm_num
  have h10 : kpAt tpose_kp 10 = ⟨-0.1, 0, 0⟩ := by
    unfold tpose_kp
    rw [kpAt_map_range _ _ _ (by norm_num)]
    norm_num
  have h5 : kpAt tpose_kp 5 = ⟨0.2, 0.4, 0⟩ := by
    unfold tpose_kp
    rw [kpAt_map_range _ _ _ (by norm_num)]
    norm_num
  have h6 : kpAt tpose_kp 6 = ⟨-0.2, 0.4, 0⟩ := by
    unfold tpose_kp
    rw [kpAt_map_range _ _ _ (by norm_num)]
    norm_num
  have h67 : kpAt tpose_kp 67 = ⟨0.1, 0.4, 0⟩ := by
    unfold tpose_kp
    rw [kpAt_map_range _ _ _ (by norm_num)]
    norm_num
  have h69 : kpAt tpose_kp 69 = ⟨0, 0.5, 0⟩ := by
    unfold tpose_kp
    rw [kpAt_map_range _ _ _ (by norm_num)]
    norm_num
  have hlen70 : tpose_kp.length = 70 := by
    unfold tpose_kp
    simp
  -- extracted positions on the path to joint 14
  have hpos0 : extract_bvh_positions_from_mhr tpose_kp false 0 = ⟨0, 0, 0⟩ := by
    simp only [extract_bvh_positions_from_mhr]
    rw [if_pos trivial, h9, h10]
    unfold Vec3.smul Vec3.add
    exact Vec3.ext3 (by norm_num) (by norm_num) (by norm_num)
  have hpos1 : extract_bvh_positions_from_mhr tpose_kp false 1
      = ⟨0, 0.125, 0⟩ := by
    simp only [extract_bvh_positions_from_mhr]
    rw [if_pos trivial, h9, h10, h69]
    unfold Vec3.smul Vec3.add Vec3.sub
    exact Vec3.ext3 (by norm_num) (by norm_num) (by norm_num)
  have hpos2 : extract_bvh_positions_from_mhr tpose_kp false 2
      = ⟨0, 0.25, 0⟩ := by
    simp only [extract_bvh_positions_from_mhr]
    rw [if_pos trivial, h9, h10, h69]
    unfold Vec3.smul Vec3.add Vec3.sub
    exact Vec3.ext3 (by norm_num) (by norm_num) (by norm_num)
  have hpos3 : extract_bvh_positions_from_mhr tpose_kp false 3
      = ⟨0, 0.375, 0⟩ := by
    simp only [extract_bvh_positions_from_mhr]
    rw [if_pos trivial, h9, h10, h69]
    unfold Vec3.smul Vec3.add Vec3.sub
    exact Vec3.ext3 (by norm_num) (by norm_num) (by norm_num)
  have hpos4 : extract_bvh_positions_from_mhr tpose_kp false 4
      = ⟨0, 0.5, 0⟩ := by
    rw [extract_mapped tpose_kp false 4 69 (by norm_num) (by norm_num)
      (by norm_num) (by norm_num) (by decide) (by decide)
      (by rw [hlen70]; norm_num), h69]
  have hpos14 : extract_bvh_positions_from_mhr tpose_kp false 14
      = ⟨0.1, 0.4, 0⟩ := by
    rw [extract_mapped tpose_kp false 14 67 (by norm_num) (by norm_num)
      (by norm_num) (by norm_num) (by decide) (by decide)
      (by rw [hlen70]; norm_num), h67]
  have hpos16 : extract_bvh_positions_from_mhr tpose_kp false 16
      = ⟨0.2, 0.4, 0⟩ := by
    rw [extract_mapped tpose_kp false 16 5 (by norm_num) (by norm_num)
      (by norm_num) (by norm_num) (by decide) (by decide)
      (by rw [hlen70]; norm_num), h5]
  -- root basis: diag(-1, 1, -1)
  have hup : root_up tpose_kp = ⟨0, 1, 0⟩ := by
    simp only [root_up, shoulder_center, hip_center]
    rw [h9, h10, h5, h6]
    have hsubv : Vec3.sub
        (Vec3.smul (1/2) (Vec3.add ⟨0.2, 0.4, 0⟩ ⟨-0.2, 0.4, 0⟩))
        (Vec3.smul (1/2) (Vec3.add ⟨0.1, 0, 0⟩ ⟨-0.1, 0, 0⟩))
        = ⟨0, 0.4, 0⟩ := by
      unfold Vec3.sub Vec3.smul Vec3.add
      exact Vec3.ext3 (by norm_num) (by norm_num) (by norm_num)
    rw [hsubv]
    have hn : Vec3.norm (⟨0, 0.4, 0⟩ : Vec3) = 0.4 := by
      refine Vec3.norm_eq_of_sq (by norm_num) ?_
      unfold Vec3.normSq
      norm_num
    rw [hn, if_neg (by norm_num)]
    unfold Vec3.smul
    exact Vec3.ext3 (by norm_num) (by norm_num) (by norm_num)
  have hright : root_right tpose_kp = ⟨-1, 0, 0⟩ := by
    simp only [root_right]
    rw [h9, h10]
    have hsubv : Vec3.sub (⟨-0.1, 0, 0⟩ : Vec3) ⟨0.1, 0, 0⟩ = ⟨-0.2, 0, 0⟩ := by
      unfold Vec3.sub
      exact Vec3.ext3 (by norm_num) (by norm_num) (by norm_num)
    rw [hsubv]
    have hn : Vec3.norm (⟨-0.2, 0, 0⟩ : Vec3) = 0.2 := by
      refine Vec3.norm_eq_of_sq (by norm_num) ?_
      unfold Vec3.normSq
      norm_num
    rw [hn, if_neg (by norm_num)]
    unfold Vec3.smul
    exact Vec3.ext3 (by norm_num) (by norm_num) (by norm_num)
  have hfw : root_forward tpose_kp = ⟨0, 0, -1⟩ := by
    simp only [root_forward]
    rw [hright, hup]
    have hcr : Vec3.cross (⟨-1, 0, 0⟩ : Vec3) ⟨0, 1, 0⟩ = ⟨0, 0, -1⟩ := by
      unfold Vec3.cross
      exact Vec3.ext3 (by norm_num) (by norm_num) (by norm_num)
    rw [hcr]
    have hn : Vec3.norm (⟨0, 0, -1⟩ : Vec3) = 1 := by
      refine Vec3.norm_eq_of_sq (by norm_num) ?_
      unfold Vec3.normSq
      norm_num
    rw [hn, if_neg (by norm_num)]
    unfold Vec3.smul
    exact Vec3.ext3 (by norm_num) (by norm_num) (by norm_num)
  have hroot : compute_root_rotation tpose_kp
      = ⟨-1, 0, 0, 0, 1, 0, 0, 0, -1⟩ := by
    unfold compute_root_rotation
    rw [hup, hfw]
    have hcr : Vec3.cross (⟨0, 1, 0⟩ : Vec3) ⟨0, 0, -1⟩ = ⟨-1, 0, 0⟩ := by
      unfold Vec3.cross
      exact Vec3.ext3 (by norm_num) (by norm_num) (by norm_num)
    rw [hcr]
    unfold Mat3.ofCols
    exact Mat3.ext9 (by norm_num) (by norm_num) (by norm_num) (by norm_num)
      (by norm_num) (by norm_num) (by norm_num) (by norm_num) (by norm_num)
  -- rest directions along the path
  have hrest1 : compute_rest_directions MHR_BVH_BODY_PARENTS 1 = ⟨0, 1, 0⟩ := by
    rw [compute_rest_directions_child _ _ 2 (by decide),
      show MHR_BVH_OFFSETS 2 = some ⟨0, 0.15, 0⟩ from by
        norm_num [MHR_BVH_OFFSETS]]
    simp only [Option.getD_some]
    have hn : Vec3.norm (⟨0, 0.15, 0⟩ : Vec3) = 0.15 := by
      refine Vec3.norm_eq_of_sq (by norm_num) ?_
      unfold Vec3.normSq
      norm_num
    rw [hn, if_pos (by norm_num)]
    unfold Vec3.smul
    exact Vec3.ext3 (by norm_num) (by norm_num) (by norm_num)
  have hrest2 : compute_rest_directions MHR_BVH_BODY_PARENTS 2 = ⟨0, 1, 0⟩ := by
    rw [compute_rest_directions_child _ _ 3 (by decide),
      show MHR_BVH_OFFSETS 3 = some ⟨0, 0.15, 0⟩ from by
        norm_num [MHR_BVH_OFFSETS]]
    simp only [Option.getD_some]
    have hn : Vec3.norm (⟨0, 0.15, 0⟩ : Vec3) = 0.15 := by
      refine Vec3.norm_eq_of_sq (by norm_num) ?_
      unfold Vec3.normSq
      norm_num
    rw [hn, if_pos (by norm_num)]
    unfold Vec3.smul
    exact Vec3.ext3 (by norm_num) (by norm_num) (by norm_num)
  have hrest3 : compute_rest_directions MHR_BVH_BODY_PARENTS 3 = ⟨0, 1, 0⟩ := by
    rw [compute_rest_directions_child _ _ 4 (by decide),
      show MHR_BVH_OFFSETS 4 = some ⟨0, 0.1, 0⟩ from by
        norm_num [MHR_BVH_OFFSETS]]
    simp only [Option.getD_some]
    have hn : Vec3.norm (⟨0, 0.1, 0⟩ : Vec3) = 0.1 := by
      refine Vec3.norm_eq_of_sq (by norm_num) ?_
      unfold Vec3.normSq
      norm_num
    rw [hn, if_pos (by norm_num)]
    unfold Vec3.smul
    exact Vec3.ext3 (by norm_num) (by norm_num) (by norm_num)
  have hrest14 : compute_rest_directions MHR_BVH_BODY_PARENTS 14
      = ⟨1, 0, 0⟩ := by
    rw [compute_rest_directions_child _ _ 16 (by decide),
      show MHR_BVH_OFFSETS 16 = some ⟨0.1, 0, 0⟩ from by
        norm_num [MHR_BVH_OFFSETS]]
    simp only [Option.getD_some]
    have hn : Vec3.norm (⟨0.1, 0, 0⟩ : Vec3) = 0.1 := by
      refine Vec3.norm_eq_of_sq (by norm_num) ?_
      unfold Vec3.normSq
      norm_num
    rw [hn, if_pos (by norm_num)]
    unfold Vec3.smul
    exact Vec3.ext3 (by norm_num) (by norm_num) (by norm_num)
  -- accumulated rotations along the path
  have hacc0 : accRot MHR_BVH_BODY_PARENTS
      (compute_rest_directions MHR_BVH_BODY_PARENTS)
      (extract_bvh_positions_from_mhr tpose_kp false)
      (compute_root_rotation tpose_kp) 0
      = ⟨-1, 0, 0, 0, 1, 0, 0, 0, -1⟩ := by
    rw [accRot_root _ _ _ _ 0 (by decide)]
    exact hroot
  have hnormSqY : Vec3.normSq (⟨0, 1, 0⟩ : Vec3) = 1 := by
    unfold Vec3.normSq
    norm_num
  have hmvY : Mat3.mulVec (⟨-1, 0, 0, 0, 1, 0, 0, 0, -1⟩ : Mat3) ⟨0, 1, 0⟩
      = ⟨0, 1, 0⟩ := by
    unfold Mat3.mulVec
    exact Vec3.ext3 (by norm_num) (by norm_num) (by norm_num)
  have hacc1 : accRot MHR_BVH_BODY_PARENTS
      (compute_rest_directions MHR_BVH_BODY_PARENTS)
      (extract_bvh_positions_from_mhr tpose_kp false)
      (compute_root_rotation tpose_kp) 1
      = ⟨-1, 0, 0, 0, 1, 0, 0, 0, -1⟩ := by
    have hsub : Vec3.sub (extract_bvh_positions_from_mhr tpose_kp false 2)
        (extract_bvh_positions_from_mhr tpose_kp false 1) = ⟨0, 0.125, 0⟩ := by
      rw [hpos2, hpos1]
      unfold Vec3.sub
      exact Vec3.ext3 (by norm_num) (by norm_num) (by norm_num)
    have hnd : Vec3.norm (Vec3.sub
        (extract_bvh_positions_from_mhr tpose_kp false 2)
        (extract_bvh_positions_from_mhr tpose_kp false 1)) = 0.125 := by
      rw [hsub]
      refine Vec3.norm_eq_of_sq (by norm_num) ?_
      unfold Vec3.normSq
      norm_num
    rw [accRot_step _ _ _ _ 1 2 (by decide) (by decide) (by decide)
      (by rw [hnd]; norm_num)]
    rw [show (parAt MHR_BVH_BODY_PARENTS 1).toNat = 0 from by decide,
      hacc0, hrest1]
    have hcur : Vec3.smul (1 / Vec3.norm (Vec3.sub
        (extract_bvh_positions_from_mhr tpose_kp false 2)
        (extract_bvh_positions_from_mhr tpose_kp false 1)))
        (Vec3.sub (extract_bvh_positions_from_mhr tpose_kp false 2)
          (extract_bvh_positions_from_mhr tpose_kp false 1)) = ⟨0, 1, 0⟩ := by
      rw [hnd, hsub]
      unfold Vec3.smul
      exact Vec3.ext3 (by norm_num) (by norm_num) (by norm_num)
    rw [hcur, hmvY, rmfv_self hnormSqY, Mat3.one_mul]
  have hacc2 : accRot MHR_BVH_BODY_PARENTS
      (compute_rest_directions MHR_BVH_BODY_PARENTS)
      (extract_bvh_positions_from_mhr tpose_kp false)
      (compute_root_rotation tpose_kp) 2
      = ⟨-1, 0, 0, 0, 1, 0, 0, 0, -1⟩ := by
    have hsub : Vec3.sub (extract_bvh_positions_from_mhr tpose_kp false 3)
        (extract_bvh_positions_from_mhr tpose_kp false 2) = ⟨0, 0.125, 0⟩ := by
      rw [hpos3, hpos2]
      unfold Vec3.sub
      exact Vec3.ext3 (by norm_num) (by norm_num) (by norm_num)
    have hnd : Vec3.norm (Vec3.sub
        (extract_bvh_positions_from_mhr tpose_kp false 3)
        (extract_bvh_positions_from_mhr tpose_kp false 2)) = 0.125 := by
      rw [hsub]
      refine Vec3.norm_eq_of_sq (by norm_num) ?_
      unfold Vec3.normSq
      norm_num
    rw [accRot_step _ _ _ _ 2 3 (by decide) (by decide) (by decide)
      (by rw [hnd]; norm_num)]
    rw [show (parAt MHR_BVH_BODY_PARENTS 2).toNat = 1 from by decide,
      hacc1, hrest2]
    have hcur : Vec3.smul (1 / Vec3.norm (Vec3.sub
        (extract_bvh_positions_from_mhr tpose_kp false 3)
        (extract_bvh_positions_from_mhr tpose_kp false 2)))
        (Vec3.sub (extract_bvh_positions_from_mhr tpose_kp false 3)
          (extract_bvh_positions_from_mhr tpose_kp false 2)) = ⟨0, 1, 0⟩ := by
      rw [hnd, hsub]
      unfold Vec3.smul
      exact Vec3.ext3 (by norm_num) (by norm_num) (by norm_num)
    rw [hcur, hmvY, rmfv_self hnormSqY, Mat3.one_mul]
  have hacc3 : accRot MHR_BVH_BODY_PARENTS
      (compute_rest_directions MHR_BVH_BODY_PARENTS)
      (extract_bvh_positions_from_mhr tpose_kp false)
      (compute_root_rotation tpose_kp) 3
      = ⟨-1, 0, 0, 0, 1, 0, 0, 0, -1⟩ := by
    have hsub : Vec3.sub (extract_bvh_positions_from_mhr tpose_kp false 4)
        (extract_bvh_positions_from_mhr tpose_kp false 3) = ⟨0, 0.125, 0⟩ := by
      rw [hpos4, hpos3]
      unfold Vec3.sub
      exact Vec3.ext3 (by norm_num) (by norm_num) (by norm_num)
    have hnd : Vec3.norm (Vec3.sub
        (extract_bvh_positions_from_mhr tpose_kp false 4)
        (extract_bvh_positions_from_mhr tpose_kp false 3)) = 0.125 := by
      rw [hsub]
      refine Vec3.norm_eq_of_sq (by norm_num) ?_
      unfold Vec3.normSq
      norm_num
    rw [accRot_step _ _ _ _ 3 4 (by decide) (by decide) (by decide)
      (by rw [hnd]; norm_num)]
    rw [show (parAt MHR_BVH_BODY_PARENTS 3).toNat = 2 from by decide,
      hacc2, hrest3]
    have hcur : Vec3.smul (1 / Vec3.norm (Vec3.sub
        (extract_bvh_positions_from_mhr tpose_kp false 4)
        (extract_bvh_positions_from_mhr tpose_kp false 3)))
        (Vec3.sub (extract_bvh_positions_from_mhr tpose_kp false 4)
          (extract_bvh_positions_from_mhr tpose_kp false 3)) = ⟨0, 1, 0⟩ := by
      rw [hnd, hsub]
      unfold Vec3.smul
      exact Vec3.ext3 (by norm_num) (by norm_num) (by norm_num)
    rw [hcur, hmvY, rmfv_self hnormSqY, Mat3.one_mul]
  have hacc14 : accRot MHR_BVH_BODY_PARENTS
      (compute_rest_directions MHR_BVH_BODY_PARENTS)
      (extract_bvh_positions_from_mhr tpose_kp false)
      (compute_root_rotation tpose_kp) 14
      = ⟨1, 0, 0, 0, -1, 0, 0, 0, -1⟩ := by
    have hsub : Vec3.sub (extract_bvh_positions_from_mhr tpose_kp false 16)
        (extract_bvh_positions_from_mhr tpose_kp false 14) = ⟨0.1, 0, 0⟩ := by
      rw [hpos16, hpos14]
      unfold Vec3.sub
      exact Vec3.ext3 (by norm_num) (by norm_num) (by norm_num)
    have hnd : Vec3.norm (Vec3.sub
        (extract_bvh_positions_from_mhr tpose_kp false 16)
        (extract_bvh_positions_from_mhr tpose_kp false 14)) = 0.1 := by
      rw [hsub]
      refine Vec3.norm_eq_of_sq (by norm_num) ?_
      unfold Vec3.normSq
      norm_num
    rw [accRot_step _ _ _ _ 14 16 (by decide) (by decide) (by decide)
      (by rw [hnd]; norm_num)]
    rw [show (parAt MHR_BVH_BODY_PARENTS 14).toNat = 3 from by decide,
      hacc3, hrest14]
    have hmvX : Mat3.mulVec (⟨-1, 0, 0, 0, 1, 0, 0, 0, -1⟩ : Mat3) ⟨1, 0, 0⟩
        = ⟨-1, 0, 0⟩ := by
      unfold Mat3.mulVec
      exact Vec3.ext3 (by norm_num) (by norm_num) (by norm_num)
    have hcur : Vec3.smul (1 / Vec3.norm (Vec3.sub
        (extract_bvh_positions_from_mhr tpose_kp false 16)
        (extract_bvh_positions_from_mhr tpose_kp false 14)))
        (Vec3.sub (extract_bvh_positions_from_mhr tpose_kp false 16)
          (extract_bvh_positions_from_mhr tpose_kp false 14)) = ⟨1, 0, 0⟩ := by
      rw [hnd, hsub]
      unfold Vec3.smul
      exact Vec3.ext3 (by norm_num) (by norm_num) (by norm_num)
    rw [hcur, hmvX]
    have hneg : (⟨1, 0, 0⟩ : Vec3) = Vec3.neg ⟨-1, 0, 0⟩ := by
      unfold Vec3.neg
      exact Vec3.ext3 (by norm_num) (by norm_num) (by norm_num)
    rw [hneg, rmfv_neg (by unfold Vec3.normSq; norm_num)]
    have hxcond : ¬ |(⟨-1, 0, 0⟩ : Vec3).x| < 0.9 * (1 + 1e-8) := by
      simp only
      rw [abs_of_neg (by norm_num)]
      norm_num
    rw [if_neg hxcond]
    have hcr : Vec3.cross (⟨-1, 0, 0⟩ : Vec3) Vec3.ey = ⟨0, 0, -1⟩ := by
      unfold Vec3.cross Vec3.ey
      exact Vec3.ext3 (by norm_num) (by norm_num) (by norm_num)
    rw [hcr]
    have hnz : Vec3.normalize (⟨0, 0, -1⟩ : Vec3) = ⟨0, 0, -1⟩ := by
      unfold Vec3.normalize
      have hn : Vec3.norm (⟨0, 0, -1⟩ : Vec3) = 1 := by
        refine Vec3.norm_eq_of_sq (by norm_num) ?_
        unfold Vec3.normSq
        norm_num
      rw [hn]
      unfold Vec3.smul
      exact Vec3.ext3 (by norm_num) (by norm_num) (by norm_num)
    rw [hnz]
    have hrot : rot180 ⟨0, 0, -1⟩ = ⟨-1, 0, 0, 0, -1, 0, 0, 0, 1⟩ := by
      unfold rot180 Mat3.add Mat3.smul Mat3.one Mat3.outer
      exact Mat3.ext9 (by norm_num) (by norm_num) (by norm_num) (by norm_num)
        (by norm_num) (by norm_num) (by norm_num) (by norm_num) (by norm_num)
    rw [hrot]
    unfold Mat3.mul
    exact Mat3.ext9 (by norm_num) (by norm_num) (by norm_num) (by norm_num)
      (by norm_num) (by norm_num) (by norm_num) (by norm_num) (by norm_num)
  -- the reported local rotation and its Euler decomposition
  have hframe : (solve_frame tpose_kp false).1 14
      = joint_euler MHR_BVH_BODY_PARENTS
          (compute_rest_directions MHR_BVH_BODY_PARENTS)
          (extract_bvh_positions_from_mhr tpose_kp false)
          (compute_root_rotation tpose_kp) 14 := rfl
  have heuler : (solve_frame tpose_kp false).1 14 = (180, 0, 0) := by
    rw [hframe]
    unfold joint_euler joint_local_rot
    rw [if_neg (by decide), if_pos (by decide)]
    rw [show (parAt MHR_BVH_BODY_PARENTS 14).toNat = 3 from by decide,
      hacc3, hacc14]
    have hlocal : Mat3.mul (Mat3.transpose ⟨-1, 0, 0, 0, 1, 0, 0, 0, -1⟩)
        (⟨1, 0, 0, 0, -1, 0, 0, 0, -1⟩ : Mat3)
        = ⟨-1, 0, 0, 0, -1, 0, 0, 0, 1⟩ := by
      unfold Mat3.transpose Mat3.mul
      exact Mat3.ext9 (by norm_num) (by norm_num) (by norm_num) (by norm_num)
        (by norm_num) (by norm_num) (by norm_num) (by norm_num) (by norm_num)
    rw [hlocal]
    unfold eulerZXY
    have hzv : deg (atan2 (-(⟨-1, 0, 0, 0, -1, 0, 0, 0, 1⟩ : Mat3).m01)
        (⟨-1, 0, 0, 0, -1, 0, 0, 0, 1⟩ : Mat3).m11) = 180 := by
      show deg (atan2 (-(0 : ℝ)) (-1)) = 180
      rw [neg_zero, atan2_zero_neg (by norm_num), deg_pi]
    have hxv : deg (Real.arcsin
        (clip (⟨-1, 0, 0, 0, -1, 0, 0, 0, 1⟩ : Mat3).m21 (-1) 1)) = 0 := by
      show deg (Real.arcsin (clip (0 : ℝ) (-1) 1)) = 0
      rw [show clip (0 : ℝ) (-1) 1 = 0 from by unfold clip; norm_num,
        Real.arcsin_zero, deg_zero]
    have hyv : deg (atan2 (-(⟨-1, 0, 0, 0, -1, 0, 0, 0, 1⟩ : Mat3).m20)
        (⟨-1, 0, 0, 0, -1, 0, 0, 0, 1⟩ : Mat3).m22) = 0 := by
      show deg (atan2 (-(0 : ℝ)) 1) = 0
      rw [neg_zero, atan2_zero_pos one_pos, deg_zero]
    rw [hzv, hxv, hyv]
  refine ⟨heuler, ?_⟩
  rw [heuler]
  intro hbad
  have := congrArg Prod.fst hbad
  norm_num at this

end MHRBVH
